import Mathlib

/-!
# Heimdall: composite mechanisms, auth-data extraction, error handlers and
the configuration loader

A shallow embedding of the pipeline fragments of the repository:

* `internal/pipeline/authenticators/composite_authenticator.go`
* `internal/pipeline/errorhandlers/composite_error_handler.go`
* `internal/pipeline/extractors/composite_extract_strategy.go`
* `internal/pipeline/extractors/form_parameter_extract_strategy.go`
* `internal/handler/errorhandler/error_handler.go`
* `internal/pipeline/authenticators/noop_authenticator.go`
* `internal/pipeline/hydrators/default_hydrator.go`
* `internal/config/loader.go`

Go interfaces whose implementations may perform I/O are embedded as
state-passing functions over an arbitrary world state `σ`; a Go pointer that
may be nil is an `Option`; a Go `error` is `Option GoError` (`none` = nil).
-/

set_option autoImplicit false

namespace Heimdall

/-! ## Errors -/

/-- Modelled from the spec: the sentinel error values of package
`internal/heimdall` (not in src), after the error taxonomy of §7 and the names
used by the handlers (`heimdall.ErrArgument`, ...). `Canceled` stands for the
cancellation error (`CancelledError`, Go's `context.Canceled`). -/
inductive Sentinel where
  | ErrArgument
  | ErrAuthentication
  | ErrAuthorization
  | ErrCommunication
  | ErrCommunicationTimeout
  | ErrConfiguration
  | ErrInternal
  | Canceled
  deriving DecidableEq, Repr

/-- Modelled from the spec: `heimdall.RedirectError` (not in src), the
`RedirectError{url, code}` of §7. The handlers read `RedirectTo.String()` and
`Code` (a Go `int`). -/
structure RedirectError where
  Message : String
  Code : Int
  RedirectTo : String
  deriving DecidableEq, Repr

/-- The concrete error value at one position of an `Unwrap` chain. -/
inductive ErrorValue where
  /-- one of the package level sentinels -/
  | sentinel (s : Sentinel)
  /-- a `*heimdall.RedirectError` -/
  | redirect (r : RedirectError)
  /-- the value of `errors.New(msg)` -/
  | text (msg : String)
  deriving DecidableEq, Repr

/-- One element of an error chain: an error value and the message attached to
it by `errorchain.NewWithMessage` (`none` when there is no message). -/
structure ChainLink where
  err : ErrorValue
  msg : Option String
  deriving DecidableEq, Repr

/-- A non-nil Go `error`, as the sequence of values `errors.Is`/`errors.As`
visit (outermost first). -/
abbrev GoError := List ChainLink

/-- Go `errors.New`. -/
def errorsNew (msg : String) : GoError := [⟨.text msg, none⟩]

/-- A sentinel used as an error on its own. -/
def Sentinel.toError (s : Sentinel) : GoError := [⟨.sentinel s, none⟩]

/-- A `*RedirectError` used as an error on its own. -/
def RedirectError.toError (r : RedirectError) : GoError := [⟨.redirect r, none⟩]

/-- Modelled from the spec: `errorchain.NewWithMessage` (package
`internal/x/errorchain`, not in src): a chain of one element carrying `err`
and the message, `ConfigurationError("reconfiguration not allowed")` in §8. -/
def errorchain.NewWithMessage (err : ErrorValue) (msg : String) : GoError :=
  [⟨err, some msg⟩]

/-- Go `errors.Is(err, target)` for a sentinel target: some value of the chain
is the sentinel. -/
def errorsIs (err : GoError) (target : Sentinel) : Bool :=
  err.any (fun l => decide (l.err = .sentinel target))

/-- Modelled from the spec: `errors.Is(err, &heimdall.RedirectError{})`; the
comparison method of `RedirectError` is not in src. After §6 ("Redirect(url,
code)" is an error kind) it holds iff some value of the chain is a
`*RedirectError`. -/
def errorsIsRedirect (err : GoError) : Bool :=
  err.any (fun l => match l.err with
    | .redirect _ => true
    | _ => false)

/-- Go `errors.As(err, &redirectError)`: the first `*RedirectError` of the
chain (`none` leaves the target nil). -/
def errorsAsRedirect : GoError → Option RedirectError
  | [] => none
  | l :: rest =>
    match l.err with
    | .redirect r => some r
    | _ => errorsAsRedirect rest

/-! ## Composite authenticator -/

/-- The pair `(sub *subject.Subject, err error)` returned by `Authenticate`. -/
abbrev AuthResult (Sub : Type) := Option Sub × Option GoError

/-- The `Authenticator` interface, as far as the composite uses it: a call may
read and change the world `σ`. -/
structure Authenticator (σ Ctx Sub : Type) where
  Authenticate : Ctx → σ → AuthResult Sub × σ

/-- The `for _, a := range ca` loop of `CompositeAuthenticator.Authenticate`;
`sub` and `err` are the named results, overwritten by every iteration. -/
def CompositeAuthenticator.loop {σ Ctx Sub : Type} (ctx : Ctx) :
    List (Authenticator σ Ctx Sub) → Option Sub → Option GoError → σ → AuthResult Sub × σ
  | [], _, err, w => ((none, err), w)
  | a :: rest, _, _, w =>
    match a.Authenticate ctx w with
    | ((sub, some e), w1) => CompositeAuthenticator.loop ctx rest sub (some e) w1
    | ((sub, none), w1) => ((sub, none), w1)

/-- `CompositeAuthenticator.Authenticate`. -/
def CompositeAuthenticator.Authenticate {σ Ctx Sub : Type}
    (ca : List (Authenticator σ Ctx Sub)) (ctx : Ctx) (w : σ) : AuthResult Sub × σ :=
  CompositeAuthenticator.loop ctx ca none none w

/-- `CompositeAuthenticator.WithConfig`: the configuration map is ignored. -/
def CompositeAuthenticator.WithConfig {σ Ctx Sub Conf : Type}
    (_ca : List (Authenticator σ Ctx Sub)) (_conf : Conf) :
    Option (Authenticator σ Ctx Sub) × Option GoError :=
  (none, some (errorchain.NewWithMessage (.sentinel .ErrConfiguration) "reconfiguration not allowed"))

/-- Specification helper: run the members of `l` in order from `w`; `some w1`
when every one of them returned an error (`w1` the world after the last),
`none` as soon as one succeeds. -/
def Authenticator.failRun {σ Ctx Sub : Type} (ctx : Ctx) :
    List (Authenticator σ Ctx Sub) → σ → Option σ
  | [], w => some w
  | a :: rest, w =>
    match a.Authenticate ctx w with
    | ((_, some _), w1) => Authenticator.failRun ctx rest w1
    | ((_, none), _) => none

/-- Specification helper: the member `a` instrumented to append its index `i`
to an invocation log kept next to the world. -/
def Authenticator.traced {σ Ctx Sub : Type} (i : Nat) (a : Authenticator σ Ctx Sub) :
    Authenticator (σ × List Nat) Ctx Sub :=
  ⟨fun ctx w => ((a.Authenticate ctx w.1).1, ((a.Authenticate ctx w.1).2, w.2 ++ [i]))⟩

/-- Specification helper: instrument a list, numbering its members from `k`. -/
def Authenticator.tracedFrom {σ Ctx Sub : Type} :
    Nat → List (Authenticator σ Ctx Sub) → List (Authenticator (σ × List Nat) Ctx Sub)
  | _, [] => []
  | k, a :: rest => a.traced k :: Authenticator.tracedFrom (k + 1) rest

/-! ## Composite error handler -/

/-- The `ErrorHandler` interface, as far as the composite uses it; the error
handed in and the error returned may both be nil. -/
structure ErrorHandler (σ Ctx : Type) where
  HandleError : Ctx → Option GoError → σ → Option GoError × σ

/-- The `for _, eh := range ceh` loop of `CompositeErrorHandler.HandleError`;
`err` is the named result. -/
def CompositeErrorHandler.loop {σ Ctx : Type} (ctx : Ctx) (e : Option GoError) :
    List (ErrorHandler σ Ctx) → Option GoError → σ → Option GoError × σ
  | [], err, w => (err, w)
  | eh :: rest, _, w =>
    match eh.HandleError ctx e w with
    | (some err, w1) => CompositeErrorHandler.loop ctx e rest (some err) w1
    | (none, w1) => (none, w1)

/-- `CompositeErrorHandler.HandleError`. -/
def CompositeErrorHandler.HandleError {σ Ctx : Type}
    (ceh : List (ErrorHandler σ Ctx)) (ctx : Ctx) (e : Option GoError) (w : σ) :
    Option GoError × σ :=
  CompositeErrorHandler.loop ctx e ceh none w

/-- `CompositeErrorHandler.WithConfig`: the configuration map is ignored. -/
def CompositeErrorHandler.WithConfig {σ Ctx Conf : Type}
    (_ceh : List (ErrorHandler σ Ctx)) (_conf : Conf) :
    Option (ErrorHandler σ Ctx) × Option GoError :=
  (none, some (errorchain.NewWithMessage (.sentinel .ErrConfiguration) "reconfiguration not allowed"))

/-! ## Go `strings` and `unicode`

A Go string is embedded as a Lean `String` (a sequence of runes); `len(val)`
is its length in bytes, zero exactly for the empty string. -/

/-- Go `unicode.IsSpace`: the Latin-1 cases of the switch, and above Latin-1
the ranges of the `White_Space` table. -/
def unicode.IsSpace (r : Char) : Bool :=
  if r.toNat ≤ 0xFF then
    r = '\t' || r = '\n' || r.toNat = 0x0B || r.toNat = 0x0C || r = '\r' || r = ' '
      || r.toNat = 0x85 || r.toNat = 0xA0
  else
    r.toNat = 0x1680 || (0x2000 ≤ r.toNat && r.toNat ≤ 0x200A) || r.toNat = 0x2028
      || r.toNat = 0x2029 || r.toNat = 0x202F || r.toNat = 0x205F || r.toNat = 0x3000

/-- Go `strings.HasPrefix(s, p)`: `len(s) >= len(p) && s[:len(p)] == p`. -/
def strings.HasPrefix (s p : String) : Bool :=
  decide (p.data.length ≤ s.data.length) && decide (s.data.take p.data.length = p.data)

/-- Go `strings.TrimPrefix(s, p)`: `s[len(p):]` when `HasPrefix(s, p)`, else `s`. -/
def strings.TrimPrefix (s p : String) : String :=
  if strings.HasPrefix s p then ⟨s.data.drop p.data.length⟩ else s

/-- Go `strings.TrimLeftFunc(s, f)`: drop the leading runes satisfying `f`. -/
def strings.TrimLeftFunc (s : List Char) (f : Char → Bool) : List Char :=
  s.dropWhile f

/-- Go `strings.TrimRightFunc(s, f)`: drop the trailing runes satisfying `f`. -/
def strings.TrimRightFunc (s : List Char) (f : Char → Bool) : List Char :=
  (s.reverse.dropWhile f).reverse

/-- Go `strings.TrimSpace(s)`: all leading and trailing white space removed,
as `TrimRightFunc(TrimLeftFunc(s, unicode.IsSpace), unicode.IsSpace)`. -/
def strings.TrimSpace (s : String) : String :=
  ⟨strings.TrimRightFunc (strings.TrimLeftFunc s.data unicode.IsSpace) unicode.IsSpace⟩

/-! ## Auth-data extraction -/

/-- The `interfaces.AuthDataSource` interface (the four lookups of the
request, see `MockAuthDataSource`). -/
structure AuthDataSource where
  Header : String → String
  Cookie : String → String
  Query : String → String
  Form : String → String

/-- The `AuthDataExtractStrategy` interface: `GetAuthData` returns
`(string, error)`. -/
structure AuthDataExtractStrategy (σ : Type) where
  GetAuthData : AuthDataSource → σ → (String × Option GoError) × σ

/-- `FormParameterExtractStrategy`. -/
structure FormParameterExtractStrategy where
  Name : String
  Prefix : String

/-- `FormParameterExtractStrategy.GetAuthData`. -/
def FormParameterExtractStrategy.GetAuthData (es : FormParameterExtractStrategy)
    (s : AuthDataSource) : String × Option GoError :=
  let val := s.Form es.Name
  if val.utf8ByteSize ≠ 0 then
    (strings.TrimSpace (strings.TrimPrefix val es.Prefix), none)
  else
    ("", some (errorsNew "no authentication data present"))

/-- A `FormParameterExtractStrategy` as a value of the strategy interface; it
leaves the world untouched. -/
def FormParameterExtractStrategy.toStrategy {σ : Type} (es : FormParameterExtractStrategy) :
    AuthDataExtractStrategy σ :=
  ⟨fun s w => (es.GetAuthData s, w)⟩

/-- `CompositeExtractStrategy.GetAuthData`. -/
def CompositeExtractStrategy.GetAuthData {σ : Type} :
    List (AuthDataExtractStrategy σ) → AuthDataSource → σ → (String × Option GoError) × σ
  | [], _, w => (("", some (errorsNew "no authentication data present")), w)
  | e :: rest, s, w =>
    match e.GetAuthData s w with
    | ((t, none), w1) => ((t, none), w1)
    | ((_, some _), w1) => CompositeExtractStrategy.GetAuthData rest s w1

/-- Specification helper: run the strategies of `l` in order from `w`;
`some w1` when every one of them returned an error, `none` as soon as one
succeeds. -/
def AuthDataExtractStrategy.failRun {σ : Type} (s : AuthDataSource) :
    List (AuthDataExtractStrategy σ) → σ → Option σ
  | [], w => some w
  | e :: rest, w =>
    match e.GetAuthData s w with
    | ((_, some _), w1) => AuthDataExtractStrategy.failRun s rest w1
    | ((_, none), _) => none

/-- Specification helper: the strategy `e` instrumented to append its index
`i` to an invocation log kept next to the world. -/
def AuthDataExtractStrategy.traced {σ : Type} (i : Nat) (e : AuthDataExtractStrategy σ) :
    AuthDataExtractStrategy (σ × List Nat) :=
  ⟨fun s w => ((e.GetAuthData s w.1).1, ((e.GetAuthData s w.1).2, w.2 ++ [i]))⟩

/-- Specification helper: instrument a list, numbering its members from `k`. -/
def AuthDataExtractStrategy.tracedFrom {σ : Type} :
    Nat → List (AuthDataExtractStrategy σ) → List (AuthDataExtractStrategy (σ × List Nat))
  | _, [] => []
  | k, e :: rest => e.traced k :: AuthDataExtractStrategy.tracedFrom (k + 1) rest

/-! ## HTTP error handler (`internal/handler/errorhandler`)

The response side of `*fiber.Ctx` is embedded as a record; the fiber calls the
handlers make are embedded after the fiber documentation. -/

/-- The response body. -/
inductive Body where
  /-- nothing written yet -/
  | empty
  /-- the standard text of a status code, written by `SendStatus` -/
  | statusMessage (status : Int)
  /-- the serialisation of an error in the negotiated format, written by `Format` -/
  | formatted (accept : String) (err : GoError)
  /-- any other content written before the handler ran -/
  | raw (content : String)
  deriving DecidableEq, Repr

/-- The part of `*fiber.Ctx` the handlers touch: the status the response
reports (`Response.StatusCode()`), the response headers the handlers set, the
response body, and the content type negotiated from the request's `Accept`
header (what `c.Accepts("html", "json", "txt", "xml")` returns). -/
structure FiberCtx where
  status : Int
  headers : List (String × String)
  body : Body
  accept : String
  deriving DecidableEq, Repr

/-- Set a response header, replacing an earlier value of the same name. -/
def FiberCtx.setHeader (c : FiberCtx) (name value : String) : FiberCtx :=
  { c with headers := (name, value) :: c.headers.filter (fun h => h.1 ≠ name) }

/-- The value of a response header. -/
def FiberCtx.header (c : FiberCtx) (name : String) : Option String :=
  c.headers.lookup name

/-- fiber `Ctx.Status`: set the response status (`SetStatusCode`). The
response reports a zero status code as 200 (`StatusCode()` returns `StatusOK`
for it), and any other code as it was set. -/
def FiberCtx.Status (c : FiberCtx) (status : Int) : FiberCtx :=
  { c with status := if status = 0 then 200 else status }

/-- fiber `Ctx.SendStatus`: set the status, and the status text as body when
the body is still empty; returns a nil error. -/
def FiberCtx.SendStatus (c : FiberCtx) (status : Int) : FiberCtx × Option GoError :=
  let c1 := c.Status status
  match c1.body with
  | .empty => ({ c1 with body := .statusMessage status }, none)
  | _ => (c1, none)

/-- fiber `utils.GetMIME` on the content types `Format` negotiates. -/
def fiber.GetMIME (extension : String) : String :=
  if extension = "" then ""
  else if extension = "html" then "text/html"
  else if extension = "json" then "application/json"
  else if extension = "txt" then "text/plain"
  else if extension = "xml" then "application/xml"
  else "application/octet-stream"

/-- fiber `Ctx.Format`: set the `Content-Type` header to the MIME type of the
negotiated content type and write the value in that format. -/
def FiberCtx.Format (c : FiberCtx) (err : GoError) : FiberCtx × Option GoError :=
  ({ c.setHeader "Content-Type" (fiber.GetMIME c.accept) with
      body := .formatted c.accept err }, none)

/-- fiber `Ctx.Redirect(location, status)`: set the `Location` header and the
status (through `Ctx.Status`); returns a nil error. -/
def FiberCtx.Redirect (c : FiberCtx) (location : String) (status : Int) :
    FiberCtx × Option GoError :=
  ((c.setHeader "Location" location).Status status, none)

/-- fiber status constants. -/
def fiber.StatusBadRequest : Int := 400
/-- fiber status constant. -/
def fiber.StatusUnauthorized : Int := 401
/-- fiber status constant. -/
def fiber.StatusForbidden : Int := 403
/-- fiber status constant. -/
def fiber.StatusInternalServerError : Int := 500
/-- fiber status constant. -/
def fiber.StatusBadGateway : Int := 502

/-- One event written through a `zerolog.Logger`. -/
structure LogEvent where
  level : String
  err : GoError
  msg : String
  deriving DecidableEq, Repr

/-- A `zerolog.Logger`, as the events written through it so far. -/
structure Logger where
  events : List LogEvent
  deriving DecidableEq, Repr

/-- `logger.Error().Err(err).Msg(msg)`. -/
def Logger.Error (l : Logger) (err : GoError) (msg : String) : Logger :=
  ⟨l.events ++ [⟨"error", err, msg⟩]⟩

/-- What a call of a `fiber.ErrorHandler` leaves behind: the context, the
logger and the returned error. -/
structure HandlerOutcome where
  ctx : FiberCtx
  logger : Logger
  ret : Option GoError
  deriving DecidableEq, Repr

/-- The type `fiber.ErrorHandler`, `func(*fiber.Ctx, error) error`; `none` is
a run-time panic (nil pointer dereference). -/
abbrev FiberErrorHandler := FiberCtx → GoError → Option HandlerOutcome

/-- `defaultErrorHandler`. -/
def defaultErrorHandler (logger : Logger) : FiberErrorHandler := fun ctx err =>
  if errorsIs err .ErrArgument then
    let r := ctx.SendStatus fiber.StatusBadRequest
    some ⟨r.1, logger, r.2⟩
  else if errorsIs err .ErrAuthentication then
    let r := ctx.SendStatus fiber.StatusUnauthorized
    some ⟨r.1, logger, r.2⟩
  else if errorsIs err .ErrAuthorization then
    let r := ctx.SendStatus fiber.StatusForbidden
    some ⟨r.1, logger, r.2⟩
  else if errorsIs err .ErrCommunicationTimeout then
    let r := ctx.SendStatus fiber.StatusBadGateway
    some ⟨r.1, logger, r.2⟩
  else if errorsIsRedirect err then
    match errorsAsRedirect err with
    | none => none
    | some redirectError =>
      let r := ctx.Redirect redirectError.RedirectTo redirectError.Code
      some ⟨r.1, logger, r.2⟩
  else
    let logger1 := logger.Error err "Error occurred"
    let r := ctx.SendStatus fiber.StatusInternalServerError
    some ⟨r.1, logger1, r.2⟩

/-- `verboseErrorHandler`. -/
def verboseErrorHandler (logger : Logger) : FiberErrorHandler := fun ctx err =>
  if errorsIs err .ErrArgument then
    let r := (ctx.Status fiber.StatusBadRequest).Format err
    some ⟨r.1, logger, r.2⟩
  else if errorsIs err .ErrAuthentication then
    let r := (ctx.Status fiber.StatusUnauthorized).Format err
    some ⟨r.1, logger, r.2⟩
  else if errorsIs err .ErrAuthorization then
    let r := (ctx.Status fiber.StatusForbidden).Format err
    some ⟨r.1, logger, r.2⟩
  else if errorsIs err .ErrCommunicationTimeout then
    let r := (ctx.Status fiber.StatusBadGateway).Format err
    some ⟨r.1, logger, r.2⟩
  else if errorsIsRedirect err then
    match errorsAsRedirect err with
    | none => none
    | some redirectError =>
      let r := ctx.Redirect redirectError.RedirectTo redirectError.Code
      some ⟨r.1, logger, r.2⟩
  else
    let logger1 := logger.Error err "Error occurred"
    let r := (ctx.Status fiber.StatusInternalServerError).Format err
    some ⟨r.1, logger1, r.2⟩

/-- Modelled from the spec: `x.IfThenElse` (package `internal/x`, not in src),
the conditional selection its name and its use in `NewErrorHandler` describe
("a verbose variant", §4.9): the second argument when the condition holds,
else the third. -/
def x.IfThenElse {T : Type} (c : Bool) (thenVal elseVal : T) : T :=
  if c then thenVal else elseVal

/-- `NewErrorHandler`. -/
def NewErrorHandler (verbose : Bool) (logger : Logger) : FiberErrorHandler :=
  x.IfThenElse verbose (verboseErrorHandler logger) (defaultErrorHandler logger)

/-- Example response context: status 200, no headers, empty body, JSON
negotiated. -/
def exampleCtx : FiberCtx := ⟨200, [], .empty, "json"⟩

/-- Example error: an authentication error caused by an argument error (a
chain in which both sentinels are found). -/
def exampleMixedError : GoError :=
  [⟨.sentinel .ErrAuthentication, some "no credentials"⟩, ⟨.sentinel .ErrArgument, none⟩]

/-- Example error: a redirect to `https://login.example.com` with code 302,
wrapped in a message. -/
def exampleRedirect : GoError :=
  [⟨.text "login required", none⟩, ⟨.redirect ⟨"redirect", 302, "https://login.example.com"⟩, none⟩]

/-- Example error: a redirect error whose code is 404. -/
def exampleRedirect404 : GoError :=
  RedirectError.toError ⟨"redirect", 404, "https://login.example.com"⟩

/-- Example error: a redirect error whose code was left at zero. -/
def exampleRedirect0 : GoError :=
  RedirectError.toError ⟨"redirect", 0, "https://login.example.com"⟩

/-- Example member: always fails with `errors.New(msg)` and counts the call
in the world (a call counter). -/
def exampleFailing (msg : String) : Authenticator Nat Unit String :=
  ⟨fun _ w => ((none, some (errorsNew msg)), w + 1)⟩

/-- Example member: always succeeds with the subject `sub` and counts the call. -/
def exampleSucceeding (sub : String) : Authenticator Nat Unit String :=
  ⟨fun _ w => ((some sub, none), w + 1)⟩

/-- Example request: the form field `token` holds `Bearer abc`, the form field
`blank` holds `Bearer`, every other lookup is empty. -/
def exampleSource : AuthDataSource where
  Header := fun _ => ""
  Cookie := fun _ => ""
  Query := fun _ => ""
  Form := fun n => if n = "token" then "Bearer abc" else if n = "blank" then "Bearer" else ""

/-- Example strategy: reads the form field `name`, prefix `Bearer`, and counts
the call in the world. -/
def exampleForm (name : String) : AuthDataExtractStrategy Nat :=
  ⟨fun s w => (FormParameterExtractStrategy.GetAuthData ⟨name, "Bearer"⟩ s, w + 1)⟩

/-! ## Go values, subjects, the noop authenticator and the default hydrator -/

/-- The levels of `zerolog.Level`. -/
inductive zerolog.Level where
  | TraceLevel
  | DebugLevel
  | InfoLevel
  | WarnLevel
  | ErrorLevel
  | FatalLevel
  | PanicLevel
  | NoLevel
  | Disabled
  deriving DecidableEq, Repr

/-- A Go value held in an `interface{}` (`any`): its dynamic type and value.
Two such values are equal (Go `==`, `switch v`) when both agree. -/
inductive GoAny where
  /-- the nil interface -/
  | nilValue
  /-- a `bool` -/
  | bool (b : Bool)
  /-- an `int` -/
  | int (i : Int)
  /-- a `string` -/
  | str (s : String)
  /-- a value of a defined type whose underlying type is `string` -/
  | namedString (pkgPath name : String) (s : String)
  /-- a `zerolog.Level` -/
  | level (l : zerolog.Level)
  /-- a value of any other type, by a description -/
  | other (descr : String)
  deriving DecidableEq, Repr

/-- Modelled from the spec: `heimdall.Subject` (not in src), the
`Subject` of §3 with an `id` and `attributes`; the fields are named as in the
literal `subject.Subject{ID: ..., Attributes: ...}` of the tests. The zero
value `Subject{}` has the empty `ID` and no attributes. -/
structure Subject where
  ID : String := ""
  Attributes : List (String × GoAny) := []
  deriving DecidableEq, Repr

/-- Modelled from the spec: `heimdall.SubjectContext` (not in src), as far as
the authenticator uses it: the field `Subject *Subject`. -/
structure SubjectContext where
  Subject : Option Subject
  deriving DecidableEq, Repr

/-- `noopAuthenticator.Authenticate`: `sc.Subject = &heimdall.Subject{}`,
then `return nil`. The result is the context after the call and the returned
error. -/
def noopAuthenticator.Authenticate {Ctx : Type} (_ctx : Ctx) (_s : AuthDataSource)
    (sc : SubjectContext) : SubjectContext × Option GoError :=
  ({ sc with Subject := some {} }, none)

/-- The `Hydrator` interface, as far as it is called. -/
structure Hydrator (Ctx Sub : Type) where
  Hydrate : Ctx → Option Sub → Option GoError

/-- `defaultHydrator`, the empty struct. -/
structure defaultHydrator where
  deriving DecidableEq, Repr

/-- `newDefaultHydrator`. -/
def newDefaultHydrator {Conf : Type} (_rawConfig : Conf) : defaultHydrator × Option GoError :=
  ({}, none)

/-- `defaultHydrator.Hydrate`. -/
def defaultHydrator.Hydrate {Ctx Sub : Type} (_h : defaultHydrator) (_ctx : Ctx)
    (_sub : Option Sub) : Option GoError :=
  none

/-- `defaultHydrator.WithConfig`: `return nil, nil`. -/
def defaultHydrator.WithConfig {Ctx Sub Conf : Type} (_h : defaultHydrator) (_config : Conf) :
    Option (Hydrator Ctx Sub) × Option GoError :=
  (none, none)

/-! ## Composite error handler: specification helpers -/

/-- Specification helper: hand `e` to the handlers of `l` in order from `w`;
`some w1` when every one of them returned an error (declined), `none` as soon
as one returns nil. -/
def ErrorHandler.declineRun {σ Ctx : Type} (ctx : Ctx) (e : Option GoError) :
    List (ErrorHandler σ Ctx) → σ → Option σ
  | [], w => some w
  | eh :: rest, w =>
    match eh.HandleError ctx e w with
    | (some _, w1) => ErrorHandler.declineRun ctx e rest w1
    | (none, _) => none

/-- Specification helper: the handler `eh` instrumented to append its index
`i` and the error it was handed to an invocation log kept next to the world. -/
def ErrorHandler.traced {σ Ctx : Type} (i : Nat) (eh : ErrorHandler σ Ctx) :
    ErrorHandler (σ × List (Nat × Option GoError)) Ctx :=
  ⟨fun ctx e w => ((eh.HandleError ctx e w.1).1, ((eh.HandleError ctx e w.1).2, w.2 ++ [(i, e)]))⟩

/-- Specification helper: instrument a chain, numbering its handlers from `k`. -/
def ErrorHandler.tracedFrom {σ Ctx : Type} :
    Nat → List (ErrorHandler σ Ctx) → List (ErrorHandler (σ × List (Nat × Option GoError)) Ctx)
  | _, [] => []
  | k, eh :: rest => eh.traced k :: ErrorHandler.tracedFrom (k + 1) rest

/-- Example handler: declines every error with `errors.New(msg)` and counts
the call in the world. -/
def exampleDeclining (msg : String) : ErrorHandler Nat Unit :=
  ⟨fun _ _ w => (some (errorsNew msg), w + 1)⟩

/-- Example handler: handles every error (returns nil) and counts the call. -/
def exampleHandling : ErrorHandler Nat Unit :=
  ⟨fun _ _ w => (none, w + 1)⟩

/-! ## Configuration loader (`internal/config/loader.go`) -/

/-- `expandSlices`. `none` is the run-time panic of `parts[1:]` on an empty
slice (`len(parts) == 1` fails and the slice expression is out of range). -/
def expandSlices : List String → Option (List String)
  | [] => none
  | [p] => some [p]
  | p :: q :: rest =>
    match expandSlices (q :: rest) with
    | none => none
    | some next => some (next.flatMap (fun k => [p ++ "." ++ k, p ++ "_" ++ k]))

/-- The runes of a string cut at every occurrence of the rune `sep`. -/
def strings.splitRunes (sep : Char) : List Char → List (List Char)
  | [] => [[]]
  | c :: cs =>
    if c = sep then [] :: strings.splitRunes sep cs
    else
      match strings.splitRunes sep cs with
      | [] => [[c]]
      | h :: t => (c :: h) :: t

/-- Go `strings.Split(s, sep)` for a separator of one rune, the way
`transformEnvFormat` calls it (`strings.Split(key, "_")`). -/
def strings.Split (s : String) (sep : Char) : List String :=
  (strings.splitRunes sep s.data).map String.mk

/-- The keys `transformEnvFormat` stores a value under, before lower-casing:
`expandSlices(strings.Split(key, "_"))`. -/
def transformEnvFormat.keys (key : String) : Option (List String) :=
  expandSlices (strings.Split key '_')

/-- Specification helper: the string `p1 s1 p2 ... s(n-1) pn` made of the
parts `p1..pn` and the separators `s1..s(n-1)`. -/
def joinSeparated : List String → List String → String
  | [], _ => ""
  | [p], _ => p
  | p :: _ :: _, [] => p
  | p :: q :: rest, s :: seps => p ++ s ++ joinSeparated (q :: rest) seps

/-- Specification helper: every way to choose `k` separators from
`"."` and `"_"`, each once. -/
def separatorChoices : Nat → List (List String)
  | 0 => [[]]
  | k + 1 => (separatorChoices k).flatMap (fun c => ["." :: c, "_" :: c])

/-- The letter classes of the Latin-1 `properties` table of Go's `unicode`
package (`pLu`, `pLl`, `pLo`; `notLetter` when no letter bit is set). -/
inductive unicode.LetterClass where
  | pLu
  | pLl
  | pLo
  | notLetter
  deriving DecidableEq, Repr

/-- Go `unicode.properties`, restricted to the letter bits: `A-Z`, `À-Ö`,
`Ø-Þ` are upper case, `a-z`, `µ`, `ß-ö`, `ø-ÿ` are lower case, `ª` and `º` are
other letters. -/
def unicode.properties (n : Nat) : unicode.LetterClass :=
  if 0x41 ≤ n ∧ n ≤ 0x5A then .pLu
  else if 0x61 ≤ n ∧ n ≤ 0x7A then .pLl
  else if n = 0xAA then .pLo
  else if n = 0xB5 then .pLl
  else if n = 0xBA then .pLo
  else if 0xC0 ≤ n ∧ n ≤ 0xD6 then .pLu
  else if 0xD8 ≤ n ∧ n ≤ 0xDE then .pLu
  else if 0xDF ≤ n ∧ n ≤ 0xF6 then .pLl
  else if 0xF8 ≤ n ∧ n ≤ 0xFF then .pLl
  else .notLetter

/-- The range tables `unicode.Letter` and `unicode.Lower` of the Go standard
library, consulted for runes above Latin-1; they are taken as given. -/
structure UnicodeTables where
  Letter : Char → Bool
  Lower : Char → Bool

/-- Go `unicode.IsLetter`. -/
def unicode.IsLetter (T : UnicodeTables) (r : Char) : Bool :=
  if r.toNat ≤ 0xFF then decide (unicode.properties r.toNat ≠ .notLetter) else T.Letter r

/-- Go `unicode.IsLower`. -/
def unicode.IsLower (T : UnicodeTables) (r : Char) : Bool :=
  if r.toNat ≤ 0xFF then decide (unicode.properties r.toNat = .pLl) else T.Lower r

/-- The `for _, r := range s` loop of `isLower`. -/
def isLower.loop (T : UnicodeTables) : List Char → Bool
  | [] => true
  | r :: rest =>
    if !unicode.IsLower T r && unicode.IsLetter T r then false else isLower.loop T rest

/-- `isLower`. -/
def isLower (T : UnicodeTables) (s : String) : Bool :=
  isLower.loop T s.data

/-- A `*koanf.Koanf` instance, as far as `koanfFromStruct` reads it: the
flattened keys in the order `k.Keys()` returns them. -/
structure Koanf where
  Keys : List String
  deriving DecidableEq, Repr

/-- The message built by `fmt.Sprintf` in `koanfFromStruct`. -/
def koanfFromStruct.message (key : String) : String :=
  "The Field " ++ key
    ++ " in the Config Struct does not have lowercase Key. Use the `koanf` tag!"

/-- The `for i := 0; i < len(keys); i++` loop of `koanfFromStruct`. -/
def koanfFromStruct.loop (T : UnicodeTables) (k : Koanf) :
    List String → Option GoError × Option Koanf
  | [] => (none, some k)
  | key :: rest =>
    if !isLower T key then (some (errorsNew (koanfFromStruct.message key)), none)
    else koanfFromStruct.loop T k rest

/-- `koanfFromStruct`. `Load s` stands for `k.Load(structs.Provider(s,
"koanf"), nil)` on a fresh instance: the error it returns and the instance
after the call. The result is `(error, *koanf.Koanf)` in the order of the
source. -/
def koanfFromStruct {S : Type} (T : UnicodeTables) (Load : S → Option GoError × Koanf)
    (s : S) : Option GoError × Option Koanf :=
  match Load s with
  | (some err, _) => (some err, none)
  | (none, k) => koanfFromStruct.loop T k k.Keys

/-- Go `reflect.Kind`. -/
inductive reflect.Kind where
  | Invalid | Bool | Int | Int8 | Int16 | Int32 | Int64
  | Uint | Uint8 | Uint16 | Uint32 | Uint64 | Uintptr
  | Float32 | Float64 | Complex64 | Complex128
  | Array | Chan | Func | Interface | Map | Pointer | Slice | String | Struct
  | UnsafePointer
  deriving DecidableEq, Repr

/-- Go `reflect.Type`, as far as `logLevelDecode` asks: `Kind()`, `Name()`
and `PkgPath()`. -/
structure reflect.Type where
  Kind : reflect.Kind
  Name : String
  PkgPath : String
  deriving DecidableEq, Repr

/-- `logLevelDecode`; the result is `(interface{}, error)`. -/
def logLevelDecode (fromT toT : reflect.Type) (v : GoAny) : GoAny × Option GoError :=
  if fromT.Kind = .String ∧ toT.Name = "Level" ∧ toT.PkgPath = "github.com/rs/zerolog" then
    if v = .str "panic" then (.level .PanicLevel, none)
    else if v = .str "fatal" then (.level .FatalLevel, none)
    else if v = .str "error" then (.level .ErrorLevel, none)
    else if v = .str "warn" then (.level .WarnLevel, none)
    else if v = .str "debug" then (.level .DebugLevel, none)
    else (.level .InfoLevel, none)
  else
    (v, none)

/-- Example tables: no rune above Latin-1 is a letter. -/
def exampleTables : UnicodeTables := ⟨fun _ => false, fun _ => false⟩

/-- The type `string`. -/
def exampleStringType : reflect.Type := ⟨.String, "string", ""⟩

/-- The type `zerolog.Level`. -/
def exampleLevelType : reflect.Type := ⟨.Int8, "Level", "github.com/rs/zerolog"⟩

/-- Example loader: the struct is given by its flattened keys and loading
never fails. -/
def exampleLoad (keys : List String) : Option GoError × Koanf := (none, ⟨keys⟩)

/-! ## Theorems -/

section CompositeAuthenticatorLemmas

variable {σ Ctx Sub : Type}

theorem CompositeAuthenticator.loop_cons_acc (ctx : Ctx) (a : Authenticator σ Ctx Sub)
    (rest : List (Authenticator σ Ctx Sub)) (s0 s1 : Option Sub) (e0 e1 : Option GoError) (w : σ) :
    CompositeAuthenticator.loop ctx (a :: rest) s0 e0 w
      = CompositeAuthenticator.loop ctx (a :: rest) s1 e1 w := rfl

/-- A failing prefix is skipped: the loop continues with the remaining members
from the world the prefix leaves behind, and the accumulated error is the one
of the last member of the prefix (unchanged when the prefix is empty). -/
theorem CompositeAuthenticator.loop_skip (ctx : Ctx) (rest : List (Authenticator σ Ctx Sub)) :
    ∀ (pre : List (Authenticator σ Ctx Sub)) (s0 : Option Sub) (e0 : Option GoError) (w w1 : σ),
      Authenticator.failRun ctx pre w = some w1 →
      ∃ s1 e1, CompositeAuthenticator.loop ctx (pre ++ rest) s0 e0 w
          = CompositeAuthenticator.loop ctx rest s1 e1 w1
        ∧ (pre = [] → e1 = e0) := by
  intro pre
  induction pre with
  | nil =>
    intro s0 e0 w w1 h
    simp only [Authenticator.failRun, Option.some.injEq] at h
    subst h
    exact ⟨s0, e0, rfl, fun _ => rfl⟩
  | cons b pre ih =>
    intro s0 e0 w w1 h
    rcases hb : b.Authenticate ctx w with ⟨⟨s, oe⟩, w2⟩
    cases oe with
    | none => simp [Authenticator.failRun, hb] at h
    | some e =>
      simp only [Authenticator.failRun, hb] at h
      obtain ⟨s1, e1, h1, -⟩ := ih s (some e) w2 w1 h
      refine ⟨s1, e1, ?_, fun hc => by simp at hc⟩
      simp only [List.cons_append, CompositeAuthenticator.loop, hb]
      exact h1

theorem Authenticator.tracedFrom_append (k : Nat) (pre rest : List (Authenticator σ Ctx Sub)) :
    Authenticator.tracedFrom k (pre ++ rest)
      = Authenticator.tracedFrom k pre ++ Authenticator.tracedFrom (k + pre.length) rest := by
  induction pre generalizing k with
  | nil => simp [Authenticator.tracedFrom]
  | cons b pre ih =>
    have hk : k + 1 + pre.length = k + (pre.length + 1) := by omega
    show Authenticator.traced k b :: Authenticator.tracedFrom (k + 1) (pre ++ rest) = _
    rw [ih, hk]
    rfl

theorem Authenticator.failRun_traced (ctx : Ctx) :
    ∀ (pre : List (Authenticator σ Ctx Sub)) (k : Nat) (log : List Nat) (w w1 : σ),
      Authenticator.failRun ctx pre w = some w1 →
      Authenticator.failRun ctx (Authenticator.tracedFrom k pre) (w, log)
        = some (w1, log ++ List.range' k pre.length) := by
  intro pre
  induction pre with
  | nil =>
    intro k log w w1 h
    simp only [Authenticator.failRun, Option.some.injEq] at h
    subst h
    simp [Authenticator.failRun, Authenticator.tracedFrom]
  | cons b pre ih =>
    intro k log w w1 h
    rcases hb : b.Authenticate ctx w with ⟨⟨s, oe⟩, w2⟩
    cases oe with
    | none => simp [Authenticator.failRun, hb] at h
    | some e =>
      simp only [Authenticator.failRun, hb] at h
      have := ih (k + 1) (log ++ [k]) w2 w1 h
      simp only [Authenticator.tracedFrom, Authenticator.failRun, Authenticator.traced, hb]
      rw [this]
      simp [List.range'_succ]

/-- First success, for an arbitrary world: after a prefix whose members all
fail, a succeeding member decides the result. -/
theorem CompositeAuthenticator.loop_first_success (ctx : Ctx)
    (pre post : List (Authenticator σ Ctx Sub)) (a : Authenticator σ Ctx Sub)
    (w w1 w2 : σ) (sub : Option Sub)
    (hpre : Authenticator.failRun ctx pre w = some w1)
    (ha : a.Authenticate ctx w1 = ((sub, none), w2)) :
    CompositeAuthenticator.Authenticate (pre ++ a :: post) ctx w = ((sub, none), w2) := by
  obtain ⟨s1, e1, h1, -⟩ := CompositeAuthenticator.loop_skip ctx (a :: post) pre none none w w1 hpre
  rw [CompositeAuthenticator.Authenticate, h1]
  simp only [CompositeAuthenticator.loop, ha]

end CompositeAuthenticatorLemmas

section CompositeAuthenticatorClaims

variable {σ Ctx Sub : Type}

/-- C1: if the members before `a` all fail when invoked in list order (each in
the world its predecessor left) and `a` then succeeds with subject `sub`,
`CompositeAuthenticator.Authenticate` returns exactly `sub` with a nil error
and leaves the world `a` left; on the instrumented list the invocation log is
`0, 1, ..., pre.length`: every member before `a` and `a` itself was invoked
once, in order, and no member after `a` was invoked. -/
theorem CompositeAuthenticator.Authenticate_first_success (ctx : Ctx)
    (pre post : List (Authenticator σ Ctx Sub)) (a : Authenticator σ Ctx Sub)
    (w w1 w2 : σ) (sub : Option Sub)
    (hpre : Authenticator.failRun ctx pre w = some w1)
    (ha : a.Authenticate ctx w1 = ((sub, none), w2)) :
    CompositeAuthenticator.Authenticate (pre ++ a :: post) ctx w = ((sub, none), w2)
    ∧ CompositeAuthenticator.Authenticate (Authenticator.tracedFrom 0 (pre ++ a :: post)) ctx (w, [])
        = ((sub, none), (w2, List.range (pre.length + 1))) := by
  refine ⟨CompositeAuthenticator.loop_first_success ctx pre post a w w1 w2 sub hpre ha, ?_⟩
  have hp := Authenticator.failRun_traced ctx pre 0 [] w w1 hpre
  have hta : (a.traced (0 + pre.length)).Authenticate ctx (w1, [] ++ List.range' 0 pre.length)
      = ((sub, none), (w2, List.range (pre.length + 1))) := by
    simp only [Authenticator.traced, ha, List.nil_append, Nat.zero_add]
    rw [List.range_succ, List.range_eq_range']
  have := CompositeAuthenticator.loop_first_success ctx (Authenticator.tracedFrom 0 pre)
    (Authenticator.tracedFrom (0 + pre.length + 1) post) (a.traced (0 + pre.length))
    (w, []) _ _ sub hp hta
  rw [Authenticator.tracedFrom_append]
  exact this

/-- Witness for C1 on the list `[failing, succeeding, failing]`. -/
theorem CompositeAuthenticator.Authenticate_first_success_witness :
    Authenticator.failRun () [exampleFailing "first"] 0 = some 1
    ∧ (exampleSucceeding "alice").Authenticate () 1 = ((some "alice", none), 2)
    ∧ CompositeAuthenticator.Authenticate
        ([exampleFailing "first"] ++ exampleSucceeding "alice" :: [exampleFailing "last"]) () 0
        = ((some "alice", none), 2)
    ∧ CompositeAuthenticator.Authenticate (Authenticator.tracedFrom 0
        ([exampleFailing "first"] ++ exampleSucceeding "alice" :: [exampleFailing "last"])) () (0, [])
        = ((some "alice", none), (2, List.range 2)) :=
  ⟨rfl, rfl, CompositeAuthenticator.Authenticate_first_success ()
    [exampleFailing "first"] [exampleFailing "last"] (exampleSucceeding "alice") 0 1 2
    (some "alice") rfl rfl⟩

/-- C2: in a non-empty composite `pre ++ [a]` whose members all return an
error when invoked in list order, `CompositeAuthenticator.Authenticate`
returns a nil subject and exactly the error of the last member `a`; the errors
of the members before it and any subject returned next to an error are
discarded. -/
theorem CompositeAuthenticator.Authenticate_all_fail (ctx : Ctx)
    (pre : List (Authenticator σ Ctx Sub)) (a : Authenticator σ Ctx Sub)
    (w w1 w2 : σ) (sub : Option Sub) (e : GoError)
    (hpre : Authenticator.failRun ctx pre w = some w1)
    (ha : a.Authenticate ctx w1 = ((sub, some e), w2)) :
    CompositeAuthenticator.Authenticate (pre ++ [a]) ctx w = ((none, some e), w2) := by
  obtain ⟨s1, e1, h1, -⟩ := CompositeAuthenticator.loop_skip ctx [a] pre none none w w1 hpre
  rw [CompositeAuthenticator.Authenticate, h1]
  simp only [CompositeAuthenticator.loop, ha]

/-- Witness for C2 on the list `[failing "first", failing "last"]`. -/
theorem CompositeAuthenticator.Authenticate_all_fail_witness :
    CompositeAuthenticator.Authenticate ([exampleFailing "first"] ++ [exampleFailing "last"]) () 0
      = ((none, some (errorsNew "last")), 2) :=
  CompositeAuthenticator.Authenticate_all_fail () [exampleFailing "first"] (exampleFailing "last")
    0 1 2 none (errorsNew "last") rfl rfl

end CompositeAuthenticatorClaims

section CompositeExtractStrategyLemmas

variable {σ : Type}

/-- A failing prefix is skipped, its errors are dropped. -/
theorem CompositeExtractStrategy.GetAuthData_skip (s : AuthDataSource)
    (rest : List (AuthDataExtractStrategy σ)) :
    ∀ (pre : List (AuthDataExtractStrategy σ)) (w w1 : σ),
      AuthDataExtractStrategy.failRun s pre w = some w1 →
      CompositeExtractStrategy.GetAuthData (pre ++ rest) s w
        = CompositeExtractStrategy.GetAuthData rest s w1 := by
  intro pre
  induction pre with
  | nil =>
    intro w w1 h
    simp only [AuthDataExtractStrategy.failRun, Option.some.injEq] at h
    subst h
    rfl
  | cons b pre ih =>
    intro w w1 h
    rcases hb : b.GetAuthData s w with ⟨⟨t, oe⟩, w2⟩
    cases oe with
    | none => simp [AuthDataExtractStrategy.failRun, hb] at h
    | some e =>
      simp only [AuthDataExtractStrategy.failRun, hb] at h
      simp only [List.cons_append, CompositeExtractStrategy.GetAuthData, hb]
      exact ih w2 w1 h

theorem AuthDataExtractStrategy.strategy_tracedFrom_append (k : Nat)
    (pre rest : List (AuthDataExtractStrategy σ)) :
    AuthDataExtractStrategy.tracedFrom k (pre ++ rest)
      = AuthDataExtractStrategy.tracedFrom k pre
        ++ AuthDataExtractStrategy.tracedFrom (k + pre.length) rest := by
  induction pre generalizing k with
  | nil => simp [AuthDataExtractStrategy.tracedFrom]
  | cons b pre ih =>
    have hk : k + 1 + pre.length = k + (pre.length + 1) := by omega
    show AuthDataExtractStrategy.traced k b
      :: AuthDataExtractStrategy.tracedFrom (k + 1) (pre ++ rest) = _
    rw [ih, hk]
    rfl

theorem AuthDataExtractStrategy.strategy_failRun_traced (s : AuthDataSource) :
    ∀ (pre : List (AuthDataExtractStrategy σ)) (k : Nat) (log : List Nat) (w w1 : σ),
      AuthDataExtractStrategy.failRun s pre w = some w1 →
      AuthDataExtractStrategy.failRun s (AuthDataExtractStrategy.tracedFrom k pre) (w, log)
        = some (w1, log ++ List.range' k pre.length) := by
  intro pre
  induction pre with
  | nil =>
    intro k log w w1 h
    simp only [AuthDataExtractStrategy.failRun, Option.some.injEq] at h
    subst h
    simp [AuthDataExtractStrategy.failRun, AuthDataExtractStrategy.tracedFrom]
  | cons b pre ih =>
    intro k log w w1 h
    rcases hb : b.GetAuthData s w with ⟨⟨t, oe⟩, w2⟩
    cases oe with
    | none => simp [AuthDataExtractStrategy.failRun, hb] at h
    | some e =>
      simp only [AuthDataExtractStrategy.failRun, hb] at h
      have := ih (k + 1) (log ++ [k]) w2 w1 h
      simp only [AuthDataExtractStrategy.tracedFrom, AuthDataExtractStrategy.failRun,
        AuthDataExtractStrategy.traced, hb]
      rw [this]
      simp [List.range'_succ]

/-- First success of the composite strategy, for an arbitrary world. -/
theorem CompositeExtractStrategy.GetAuthData_at_first (s : AuthDataSource)
    (pre post : List (AuthDataExtractStrategy σ)) (e : AuthDataExtractStrategy σ)
    (w w1 w2 : σ) (t : String)
    (hpre : AuthDataExtractStrategy.failRun s pre w = some w1)
    (he : e.GetAuthData s w1 = ((t, none), w2)) :
    CompositeExtractStrategy.GetAuthData (pre ++ e :: post) s w = ((t, none), w2) := by
  rw [CompositeExtractStrategy.GetAuthData_skip s (e :: post) pre w w1 hpre]
  simp only [CompositeExtractStrategy.GetAuthData, he]

/-- All strategies fail, for an arbitrary world. -/
theorem CompositeExtractStrategy.GetAuthData_none (s : AuthDataSource)
    (ce : List (AuthDataExtractStrategy σ)) (w w1 : σ)
    (hall : AuthDataExtractStrategy.failRun s ce w = some w1) :
    CompositeExtractStrategy.GetAuthData ce s w
      = (("", some (errorsNew "no authentication data present")), w1) := by
  have := CompositeExtractStrategy.GetAuthData_skip s [] ce w w1 hall
  rw [List.append_nil] at this
  rw [this]
  rfl

end CompositeExtractStrategyLemmas

section CompositeExtractStrategyClaims

variable {σ : Type}

/-- C4: `CompositeExtractStrategy.GetAuthData` tries the strategies in list
order. (1) If the strategies before `e` all return an error and `e` then
returns `t` without error, the result is `t` with a nil error, and on the
instrumented list the invocation log is `0, ..., pre.length`: no strategy after
`e` is invoked. (2) If every strategy returns an error (the empty list
included) the result is the empty string and the error
"no authentication data present", every strategy having been invoked once in
order. -/
theorem CompositeExtractStrategy.GetAuthData_first_success_or_none
    (s : AuthDataSource) (w : σ) :
    (∀ (pre post : List (AuthDataExtractStrategy σ)) (e : AuthDataExtractStrategy σ)
        (w1 w2 : σ) (t : String),
        AuthDataExtractStrategy.failRun s pre w = some w1 →
        e.GetAuthData s w1 = ((t, none), w2) →
        CompositeExtractStrategy.GetAuthData (pre ++ e :: post) s w = ((t, none), w2)
        ∧ CompositeExtractStrategy.GetAuthData
            (AuthDataExtractStrategy.tracedFrom 0 (pre ++ e :: post)) s (w, [])
          = ((t, none), (w2, List.range (pre.length + 1))))
    ∧ (∀ (ce : List (AuthDataExtractStrategy σ)) (w1 : σ),
        AuthDataExtractStrategy.failRun s ce w = some w1 →
        CompositeExtractStrategy.GetAuthData ce s w
          = (("", some (errorsNew "no authentication data present")), w1)
        ∧ CompositeExtractStrategy.GetAuthData
            (AuthDataExtractStrategy.tracedFrom 0 ce) s (w, [])
          = (("", some (errorsNew "no authentication data present")),
              (w1, List.range ce.length)))
    ∧ CompositeExtractStrategy.GetAuthData ([] : List (AuthDataExtractStrategy σ)) s w
        = (("", some (errorsNew "no authentication data present")), w) := by
  refine ⟨?_, ?_, rfl⟩
  · intro pre post e w1 w2 t hpre he
    refine ⟨CompositeExtractStrategy.GetAuthData_at_first s pre post e w w1 w2 t hpre he, ?_⟩
    have hp := AuthDataExtractStrategy.strategy_failRun_traced s pre 0 [] w w1 hpre
    have hte : (e.traced (0 + pre.length)).GetAuthData s (w1, [] ++ List.range' 0 pre.length)
        = ((t, none), (w2, List.range (pre.length + 1))) := by
      simp only [AuthDataExtractStrategy.traced, he, List.nil_append, Nat.zero_add]
      rw [List.range_succ, List.range_eq_range']
    have := CompositeExtractStrategy.GetAuthData_at_first s
      (AuthDataExtractStrategy.tracedFrom 0 pre)
      (AuthDataExtractStrategy.tracedFrom (0 + pre.length + 1) post)
      (e.traced (0 + pre.length)) (w, []) _ _ t hp hte
    rw [AuthDataExtractStrategy.strategy_tracedFrom_append]
    exact this
  · intro ce w1 hall
    refine ⟨CompositeExtractStrategy.GetAuthData_none s ce w w1 hall, ?_⟩
    have hp := AuthDataExtractStrategy.strategy_failRun_traced s ce 0 [] w w1 hall
    rw [CompositeExtractStrategy.GetAuthData_none s _ (w, []) _ hp, List.nil_append,
      List.range_eq_range']

/-- Witness for C4: in `[nope, token, blank]` the second strategy is the first
to succeed; in `[nope, other]` every strategy fails. -/
theorem CompositeExtractStrategy.GetAuthData_first_success_or_none_witness :
    (CompositeExtractStrategy.GetAuthData
        ([exampleForm "nope"] ++ exampleForm "token" :: [exampleForm "blank"]) exampleSource 0
        = (("abc", none), 2)
      ∧ CompositeExtractStrategy.GetAuthData (AuthDataExtractStrategy.tracedFrom 0
          ([exampleForm "nope"] ++ exampleForm "token" :: [exampleForm "blank"]))
          exampleSource (0, [])
        = (("abc", none), (2, List.range 2)))
    ∧ (CompositeExtractStrategy.GetAuthData [exampleForm "nope", exampleForm "other"]
          exampleSource 0
        = (("", some (errorsNew "no authentication data present")), 2)
      ∧ CompositeExtractStrategy.GetAuthData (AuthDataExtractStrategy.tracedFrom 0
          [exampleForm "nope", exampleForm "other"]) exampleSource (0, [])
        = (("", some (errorsNew "no authentication data present")), (2, List.range 2))) :=
  ⟨(CompositeExtractStrategy.GetAuthData_first_success_or_none exampleSource 0).1
      [exampleForm "nope"] [exampleForm "blank"] (exampleForm "token") 1 2 "abc" rfl rfl,
   (CompositeExtractStrategy.GetAuthData_first_success_or_none exampleSource 0).2.1
      [exampleForm "nope", exampleForm "other"] 2 rfl⟩

end CompositeExtractStrategyClaims

section StringLemmas

theorem utf8ByteSize_go_eq_zero : ∀ l : List Char, String.utf8ByteSize.go l = 0 ↔ l = []
  | [] => by simp [String.utf8ByteSize.go]
  | c :: cs => by
    have := c.utf8Size_pos
    simp only [String.utf8ByteSize.go, reduceCtorEq, iff_false]
    omega

/-- `len(val) == 0` holds exactly for the empty string. -/
theorem utf8ByteSize_eq_zero (s : String) : s.utf8ByteSize = 0 ↔ s = "" := by
  cases s with
  | mk l =>
    show String.utf8ByteSize.go l = 0 ↔ _
    rw [utf8ByteSize_go_eq_zero]
    constructor
    · intro h; subst h; rfl
    · intro h; exact congrArg String.data h

theorem strings.TrimRightFunc_eq (l : List Char) (f : Char → Bool) :
    strings.TrimRightFunc l f = l.rdropWhile f := rfl

theorem strings.HasPrefix_iff (s p : String) :
    strings.HasPrefix s p = true ↔ p.data <+: s.data := by
  simp only [strings.HasPrefix, Bool.and_eq_true, decide_eq_true_eq]
  constructor
  · rintro ⟨-, h⟩
    exact h ▸ List.take_prefix _ _
  · intro h
    exact ⟨h.length_le, List.prefix_iff_eq_take.mp h |>.symm⟩

/-- The data of a string trimmed of its prefix. -/
theorem strings.TrimPrefix_data (s p : String) :
    (∃ rest, s.data = p.data ++ rest ∧ (strings.TrimPrefix s p).data = rest)
    ∨ (¬ p.data <+: s.data ∧ (strings.TrimPrefix s p).data = s.data) := by
  by_cases h : strings.HasPrefix s p = true
  · left
    obtain ⟨rest, hr⟩ := (strings.HasPrefix_iff s p).mp h
    refine ⟨rest, hr.symm, ?_⟩
    simp only [strings.TrimPrefix, h, if_true, ← hr, List.drop_left]
  · right
    refine ⟨fun hp => h ((strings.HasPrefix_iff s p).mpr hp), ?_⟩
    simp only [strings.TrimPrefix, h]
    rfl

/-- Shape of a trimmed rune sequence: white space, the result, white space;
the result neither starts nor ends with white space. -/
theorem strings.trim_shape (l : List Char) (f : Char → Bool) :
    ∃ lead trail : List Char,
      l = lead ++ strings.TrimRightFunc (strings.TrimLeftFunc l f) f ++ trail
      ∧ (∀ c ∈ lead, f c = true) ∧ (∀ c ∈ trail, f c = true)
      ∧ (∀ c, (strings.TrimRightFunc (strings.TrimLeftFunc l f) f).head? = some c → f c = false)
      ∧ (∀ c, (strings.TrimRightFunc (strings.TrimLeftFunc l f) f).getLast? = some c
          → f c = false) := by
  rw [strings.TrimRightFunc_eq, strings.TrimLeftFunc]
  have ht : (l.dropWhile f).rdropWhile f ++ ((l.dropWhile f).reverse.takeWhile f).reverse
      = l.dropWhile f := by
    rw [List.rdropWhile, ← List.reverse_append, List.takeWhile_append_dropWhile,
      List.reverse_reverse]
  refine ⟨l.takeWhile f, ((l.dropWhile f).reverse.takeWhile f).reverse, ?_, ?_, ?_, ?_, ?_⟩
  · rw [List.append_assoc, ht, List.takeWhile_append_dropWhile]
  · intro c hc
    exact List.mem_takeWhile_imp hc
  · intro c hc
    exact List.mem_takeWhile_imp (List.mem_reverse.mp hc)
  · intro c hc
    have h1 : (l.dropWhile f).head? = some c := by
      rw [← ht]
      cases hr : (l.dropWhile f).rdropWhile f with
      | nil => rw [hr] at hc; simp at hc
      | cons x xs => rw [hr] at hc; simpa using hc
    have := List.head?_dropWhile_not f l
    rw [h1] at this
    simpa using this
  · intro c hc
    have hne : (l.dropWhile f).rdropWhile f ≠ [] := by
      intro h; rw [h] at hc; simp at hc
    have := List.rdropWhile_last_not f _ hne
    rw [List.getLast?_eq_getLast _ hne] at hc
    simp only [Option.some.injEq] at hc
    rw [hc] at this
    simpa using this

/-- The trimmed sequence is empty exactly when every rune is white space. -/
theorem strings.trim_eq_nil_iff (l : List Char) (f : Char → Bool) :
    strings.TrimRightFunc (strings.TrimLeftFunc l f) f = [] ↔ ∀ c ∈ l, f c = true := by
  rw [strings.TrimRightFunc_eq, strings.TrimLeftFunc, List.rdropWhile_eq_nil_iff]
  constructor
  · intro h
    apply List.dropWhile_eq_nil_iff.mp
    by_contra hne
    have h1 := List.head_dropWhile_not f l hne
    have h2 := h _ (List.head_mem hne)
    rw [h2] at h1
    exact absurd h1 (by decide)
  · intro h c hc
    rw [List.dropWhile_eq_nil_iff.mpr h] at hc
    simp at hc

theorem String.ne_empty_iff_data (s : String) : s ≠ "" ↔ s.data ≠ [] := by
  cases s with
  | mk l =>
    constructor
    · intro h hl
      apply h
      show String.mk l = String.mk []
      rw [show l = [] from hl]
    · intro h hs
      exact h (congrArg String.data hs)

end StringLemmas

section ExtractionClaims

/-- C3: for every composite authenticator and every composite error handler
(of any length) and every configuration map, `WithConfig` returns a nil
mechanism together with the error chain made of `heimdall.ErrConfiguration`
and the message "reconfiguration not allowed"; the error is never nil and
`errors.Is(err, heimdall.ErrConfiguration)` holds. -/
theorem Composite_WithConfig_refused {σ Ctx Sub Conf : Type}
    (ca : List (Authenticator σ Ctx Sub)) (ceh : List (ErrorHandler σ Ctx)) (conf : Conf) :
    (CompositeAuthenticator.WithConfig ca conf).1 = none
    ∧ (CompositeErrorHandler.WithConfig ceh conf).1 = none
    ∧ (CompositeAuthenticator.WithConfig ca conf).2
        = some [⟨.sentinel .ErrConfiguration, some "reconfiguration not allowed"⟩]
    ∧ (CompositeErrorHandler.WithConfig ceh conf).2
        = some [⟨.sentinel .ErrConfiguration, some "reconfiguration not allowed"⟩]
    ∧ (∀ e, (CompositeAuthenticator.WithConfig ca conf).2 = some e
          ∨ (CompositeErrorHandler.WithConfig ceh conf).2 = some e →
        errorsIs e .ErrConfiguration = true) := by
  refine ⟨rfl, rfl, rfl, rfl, ?_⟩
  intro e he
  have : e = [⟨.sentinel .ErrConfiguration, some "reconfiguration not allowed"⟩] := by
    rcases he with he | he
    · exact (Option.some.inj he).symm
    · exact (Option.some.inj he).symm
  subst this
  rfl

/-- C5 (counterexample): for the form value `Bearer` and the prefix `Bearer`,
`FormParameterExtractStrategy.GetAuthData` returns the empty string with a nil
error, and so does the composite built from that one strategy. -/
theorem FormParameterExtractStrategy.GetAuthData_empty_success :
    FormParameterExtractStrategy.GetAuthData ⟨"blank", "Bearer"⟩ exampleSource = ("", none)
    ∧ CompositeExtractStrategy.GetAuthData
        [(FormParameterExtractStrategy.mk "blank" "Bearer").toStrategy] exampleSource ()
      = (("", none), ()) := by
  decide

/-- C5 (amended): whenever `FormParameterExtractStrategy.GetAuthData` returns
without error, the form value it read is non-empty, and the returned string is
non-empty exactly when the form value with the prefix removed holds a rune
that is not white space. Whenever a `CompositeExtractStrategy` returns without
error and none of its members can succeed with an empty string, its result is
non-empty. -/
theorem FormParameterExtractStrategy.GetAuthData_nonempty_iff :
    (∀ (es : FormParameterExtractStrategy) (s : AuthDataSource),
        (es.GetAuthData s).2 = none →
        s.Form es.Name ≠ ""
        ∧ ((es.GetAuthData s).1 ≠ "" ↔
            ∃ c ∈ (strings.TrimPrefix (s.Form es.Name) es.Prefix).data,
              unicode.IsSpace c = false))
    ∧ (∀ (σ : Type) (ce : List (AuthDataExtractStrategy σ)) (s : AuthDataSource),
        (∀ e ∈ ce, ∀ (w w1 : σ) (t : String), e.GetAuthData s w = ((t, none), w1) → t ≠ "") →
        ∀ (w w1 : σ) (t : String),
          CompositeExtractStrategy.GetAuthData ce s w = ((t, none), w1) → t ≠ "") := by
  constructor
  · intro es s h
    by_cases hv : (s.Form es.Name).utf8ByteSize = 0
    · simp [FormParameterExtractStrategy.GetAuthData, hv] at h
    · refine ⟨fun hc => hv ((utf8ByteSize_eq_zero _).mpr hc), ?_⟩
      simp only [FormParameterExtractStrategy.GetAuthData, ne_eq, hv, not_false_eq_true, if_true]
      rw [← ne_eq, String.ne_empty_iff_data]
      show strings.TrimRightFunc (strings.TrimLeftFunc _ unicode.IsSpace) unicode.IsSpace ≠ [] ↔ _
      rw [ne_eq, strings.trim_eq_nil_iff]
      simp
  · intro σ ce s
    induction ce with
    | nil =>
      intro _ w w1 t h
      simp [CompositeExtractStrategy.GetAuthData] at h
    | cons e rest ih =>
      intro hmem w w1 t h
      rcases he : e.GetAuthData s w with ⟨⟨t2, oe⟩, w2⟩
      cases oe with
      | none =>
        simp only [CompositeExtractStrategy.GetAuthData, he, Prod.mk.injEq, and_true] at h
        obtain ⟨ht, -⟩ := h
        subst ht
        exact hmem e (List.mem_cons_self _ _) w w2 t2 he
      | some err =>
        simp only [CompositeExtractStrategy.GetAuthData, he] at h
        exact ih (fun e2 h2 => hmem e2 (List.mem_cons_of_mem _ h2)) w2 w1 t h

/-- Witness for C5 (amended): the form value `Bearer abc` with prefix `Bearer`. -/
theorem FormParameterExtractStrategy.GetAuthData_nonempty_iff_witness :
    (FormParameterExtractStrategy.GetAuthData ⟨"token", "Bearer"⟩ exampleSource).2 = none
    ∧ exampleSource.Form "token" ≠ ""
    ∧ ((FormParameterExtractStrategy.GetAuthData ⟨"token", "Bearer"⟩ exampleSource).1 ≠ "" ↔
        ∃ c ∈ (strings.TrimPrefix (exampleSource.Form "token") "Bearer").data,
          unicode.IsSpace c = false) :=
  ⟨rfl, FormParameterExtractStrategy.GetAuthData_nonempty_iff.1 ⟨"token", "Bearer"⟩
    exampleSource rfl⟩

/-- C6: `FormParameterExtractStrategy.GetAuthData` fails if and only if the
form value for the name is empty, and then returns the empty string with the
error "no authentication data present". Otherwise the error is nil and the
returned string `r` is obtained from the form value by removing one leading
occurrence of the prefix (the value itself when it does not start with the
prefix; runes are compared exactly, so case-sensitively) and then trimming:
the remainder is `lead ++ r ++ trail` with `lead` and `trail` all white space
and `r` neither starting nor ending with white space. -/
theorem FormParameterExtractStrategy.GetAuthData_spec
    (es : FormParameterExtractStrategy) (s : AuthDataSource) :
    ((es.GetAuthData s).2 ≠ none ↔ s.Form es.Name = "")
    ∧ (s.Form es.Name = "" →
        es.GetAuthData s = ("", some (errorsNew "no authentication data present")))
    ∧ (s.Form es.Name ≠ "" →
        ∃ rest lead r trail : List Char,
          ((s.Form es.Name).data = es.Prefix.data ++ rest
            ∨ (¬ es.Prefix.data <+: (s.Form es.Name).data ∧ rest = (s.Form es.Name).data))
          ∧ rest = lead ++ r ++ trail
          ∧ (∀ c ∈ lead, unicode.IsSpace c = true)
          ∧ (∀ c ∈ trail, unicode.IsSpace c = true)
          ∧ (∀ c, r.head? = some c → unicode.IsSpace c = false)
          ∧ (∀ c, r.getLast? = some c → unicode.IsSpace c = false)
          ∧ es.GetAuthData s = (⟨r⟩, none)) := by
  by_cases hv : (s.Form es.Name).utf8ByteSize = 0
  · have he := (utf8ByteSize_eq_zero _).mp hv
    have hres : es.GetAuthData s = ("", some (errorsNew "no authentication data present")) := by
      simp [FormParameterExtractStrategy.GetAuthData, hv]
    refine ⟨?_, fun _ => hres, fun h => absurd he h⟩
    rw [hres]
    simp [he]
  · have hne : s.Form es.Name ≠ "" := fun hc => hv ((utf8ByteSize_eq_zero _).mpr hc)
    have hres : es.GetAuthData s
        = (strings.TrimSpace (strings.TrimPrefix (s.Form es.Name) es.Prefix), none) := by
      simp [FormParameterExtractStrategy.GetAuthData, hv]
    refine ⟨?_, fun h => absurd h hne, fun _ => ?_⟩
    · rw [hres]
      simp [hne]
    · obtain ⟨lead, trail, hsh, hl, ht, hh, hlast⟩ :=
        strings.trim_shape (strings.TrimPrefix (s.Form es.Name) es.Prefix).data unicode.IsSpace
      refine ⟨(strings.TrimPrefix (s.Form es.Name) es.Prefix).data, lead, _, trail,
        ?_, hsh, hl, ht, hh, hlast, ?_⟩
      · rcases strings.TrimPrefix_data (s.Form es.Name) es.Prefix with ⟨rest, h1, h2⟩ | ⟨h1, h2⟩
        · left; rw [h2]; exact h1
        · right; exact ⟨h1, h2⟩
      · rw [hres]
        rfl

/-- Witness for C6: the form value `Bearer abc` with prefix `Bearer`
yields `abc`. -/
theorem FormParameterExtractStrategy.GetAuthData_spec_witness :
    exampleSource.Form "token" ≠ ""
    ∧ FormParameterExtractStrategy.GetAuthData ⟨"token", "Bearer"⟩ exampleSource = ("abc", none)
    ∧ ∃ rest lead r trail : List Char,
          ((exampleSource.Form "token").data = "Bearer".data ++ rest
            ∨ (¬ "Bearer".data <+: (exampleSource.Form "token").data
                ∧ rest = (exampleSource.Form "token").data))
          ∧ rest = lead ++ r ++ trail
          ∧ (∀ c ∈ lead, unicode.IsSpace c = true)
          ∧ (∀ c ∈ trail, unicode.IsSpace c = true)
          ∧ (∀ c, r.head? = some c → unicode.IsSpace c = false)
          ∧ (∀ c, r.getLast? = some c → unicode.IsSpace c = false)
          ∧ FormParameterExtractStrategy.GetAuthData ⟨"token", "Bearer"⟩ exampleSource
              = (⟨r⟩, none) :=
  ⟨by decide, by decide,
    (FormParameterExtractStrategy.GetAuthData_spec ⟨"token", "Bearer"⟩ exampleSource).2.2
      (by decide)⟩

end ExtractionClaims

section ErrorHandlerLemmas

theorem FiberCtx.SendStatus_status (c : FiberCtx) (status : Int) :
    (c.SendStatus status).1.status = if status = 0 then 200 else status := by
  unfold FiberCtx.SendStatus
  cases hb : c.body <;> simp [FiberCtx.Status, hb]

theorem FiberCtx.SendStatus_headers (c : FiberCtx) (status : Int) :
    (c.SendStatus status).1.headers = c.headers := by
  unfold FiberCtx.SendStatus
  cases hb : c.body <;> simp [FiberCtx.Status, hb]

theorem FiberCtx.header_setHeader (c : FiberCtx) (name value : String) :
    (c.setHeader name value).header name = some value := by
  simp [FiberCtx.setHeader, FiberCtx.header, List.lookup]

theorem lookup_filter_ne (name other : String) (h : other ≠ name)
    (l : List (String × String)) :
    List.lookup name (l.filter (fun p => p.1 ≠ other)) = List.lookup name l := by
  induction l with
  | nil => rfl
  | cons x xs ih =>
    obtain ⟨k, v⟩ := x
    by_cases hx : k = other
    · have hn : (name == k) = false := by
        rw [hx]; simpa using fun hc => h hc.symm
      rw [List.filter_cons_of_neg (by simpa using hx), List.lookup_cons, hn]
      exact ih
    · rw [List.filter_cons_of_pos (by simpa using hx), List.lookup_cons, List.lookup_cons, ih]

theorem FiberCtx.header_setHeader_ne (c : FiberCtx) (name other value : String)
    (h : other ≠ name) : (c.setHeader other value).header name = c.header name := by
  have hb : (name == other) = false := by simpa using fun hc => h hc.symm
  simp only [FiberCtx.setHeader, FiberCtx.header, List.lookup_cons, hb]
  exact lookup_filter_ne name other h c.headers

/-- `errors.As` finds a redirect exactly when `errors.Is` reports one. -/
theorem errorsIsRedirect_of_as (err : GoError) (r : RedirectError)
    (h : errorsAsRedirect err = some r) : errorsIsRedirect err = true := by
  induction err with
  | nil => simp [errorsAsRedirect] at h
  | cons l rest ih =>
    cases hl : l.err with
    | redirect r2 => simp [errorsIsRedirect, hl]
    | sentinel k =>
      simp only [errorsAsRedirect, hl] at h
      have := ih h
      simp only [errorsIsRedirect] at this
      simp [errorsIsRedirect, hl, this]
    | text m =>
      simp only [errorsAsRedirect, hl] at h
      have := ih h
      simp only [errorsIsRedirect] at this
      simp [errorsIsRedirect, hl, this]

theorem errorsAsRedirect_isSome (err : GoError) (h : errorsIsRedirect err = true) :
    ∃ r, errorsAsRedirect err = some r := by
  induction err with
  | nil => simp [errorsIsRedirect] at h
  | cons l rest ih =>
    cases hl : l.err with
    | redirect r2 => exact ⟨r2, by simp [errorsAsRedirect, hl]⟩
    | sentinel k =>
      have h2 : errorsIsRedirect rest = true := by
        simpa [errorsIsRedirect, hl] using h
      obtain ⟨r, hr⟩ := ih h2
      exact ⟨r, by simp [errorsAsRedirect, hl, hr]⟩
    | text m =>
      have h2 : errorsIsRedirect rest = true := by
        simpa [errorsIsRedirect, hl] using h
      obtain ⟨r, hr⟩ := ih h2
      exact ⟨r, by simp [errorsAsRedirect, hl, hr]⟩

/-- The redirect branch of both handlers. -/
theorem errorHandlers_redirect_core (logger : Logger) (ctx : FiberCtx) (err : GoError)
    (r : RedirectError)
    (h1 : errorsIs err .ErrArgument = false) (h2 : errorsIs err .ErrAuthentication = false)
    (h3 : errorsIs err .ErrAuthorization = false)
    (h4 : errorsIs err .ErrCommunicationTimeout = false)
    (hr : errorsAsRedirect err = some r) :
    ∃ o : HandlerOutcome,
      defaultErrorHandler logger ctx err = some o
      ∧ verboseErrorHandler logger ctx err = some o
      ∧ o = ⟨(ctx.setHeader "Location" r.RedirectTo).Status r.Code, logger, none⟩ := by
  have h5 := errorsIsRedirect_of_as err r hr
  refine ⟨⟨(ctx.setHeader "Location" r.RedirectTo).Status r.Code, logger, none⟩, ?_, ?_, rfl⟩
  · simp [defaultErrorHandler, h1, h2, h3, h4, h5, hr, FiberCtx.Redirect]
  · simp [verboseErrorHandler, h1, h2, h3, h4, h5, hr, FiberCtx.Redirect]

/-- The outcomes of `ctx.Status(st).Format(err)` and `ctx.SendStatus(st)`
agree on everything but the body and the `Content-Type` header. -/
theorem errorHandlers_status_pair (ctx : FiberCtx) (err : GoError) (st : Int) (hst : st ≠ 0) :
    ((ctx.Status st).Format err).1.status = (ctx.SendStatus st).1.status
    ∧ (∀ name : String, name ≠ "Content-Type" →
        ((ctx.Status st).Format err).1.header name = (ctx.SendStatus st).1.header name)
    ∧ ((ctx.Status st).Format err).1.accept = (ctx.SendStatus st).1.accept
    ∧ ((ctx.Status st).Format err).2 = (ctx.SendStatus st).2
    ∧ (ctx.SendStatus st).1.header "Content-Type" = ctx.header "Content-Type"
    ∧ ((ctx.Status st).Format err).1.body = .formatted ctx.accept err
    ∧ (((ctx.Status st).Format err).1.header "Content-Type").isSome = true
    ∧ (ctx.SendStatus st).1.body
        = (if ctx.body = .empty then .statusMessage (ctx.SendStatus st).1.status else ctx.body)
    ∧ (ctx.SendStatus st).1.headers = ctx.headers := by
  have hs := FiberCtx.SendStatus_status ctx st
  have hh := FiberCtx.SendStatus_headers ctx st
  rw [if_neg hst] at hs
  refine ⟨?_, ?_, ?_, ?_, ?_, rfl, ?_, ?_, hh⟩
  · rw [hs]
    simp [FiberCtx.Format, FiberCtx.Status, FiberCtx.setHeader, hst]
  · intro name hname
    have h1 : ((ctx.Status st).Format err).1.header name = (ctx.Status st).header name := by
      have := FiberCtx.header_setHeader_ne (ctx.Status st) name "Content-Type"
        (fiber.GetMIME (ctx.Status st).accept) (fun h => hname h.symm)
      simpa [FiberCtx.Format, FiberCtx.header, FiberCtx.setHeader] using this
    rw [h1]
    simp [FiberCtx.header, hh, FiberCtx.Status]
  · unfold FiberCtx.SendStatus
    cases hb : ctx.body <;> simp [FiberCtx.Format, FiberCtx.Status, FiberCtx.setHeader, hb]
  · unfold FiberCtx.SendStatus
    cases hb : ctx.body <;> simp [FiberCtx.Format, FiberCtx.Status, hb]
  · simp [FiberCtx.header, hh]
  · have h2 : ((ctx.Status st).Format err).1.header "Content-Type"
        = some (fiber.GetMIME (ctx.Status st).accept) := by
      simp [FiberCtx.Format, FiberCtx.header, FiberCtx.setHeader]
    rw [h2]
    rfl
  · rw [hs]
    unfold FiberCtx.SendStatus
    cases hb : ctx.body <;> simp [FiberCtx.Status, hb]

end ErrorHandlerLemmas

section ErrorHandlerClaims

/-- C7: `defaultErrorHandler` answers by error kind, the first matching kind
in source order winning: an argument error gets status 400; otherwise an
authentication error 401; otherwise an authorization error 403; otherwise a
communication-timeout error 502; and an error that is none of these kinds and
not a redirect gets 500. In particular an error whose only kind is
`ErrInternal`, bare or with a message, gets 500. -/
theorem defaultErrorHandler_status_by_kind (logger : Logger) (ctx : FiberCtx) (err : GoError) :
    (errorsIs err .ErrArgument = true →
      (defaultErrorHandler logger ctx err).map (fun o => o.ctx.status) = some 400)
    ∧ (errorsIs err .ErrArgument = false → errorsIs err .ErrAuthentication = true →
      (defaultErrorHandler logger ctx err).map (fun o => o.ctx.status) = some 401)
    ∧ (errorsIs err .ErrArgument = false → errorsIs err .ErrAuthentication = false →
      errorsIs err .ErrAuthorization = true →
      (defaultErrorHandler logger ctx err).map (fun o => o.ctx.status) = some 403)
    ∧ (errorsIs err .ErrArgument = false → errorsIs err .ErrAuthentication = false →
      errorsIs err .ErrAuthorization = false → errorsIs err .ErrCommunicationTimeout = true →
      (defaultErrorHandler logger ctx err).map (fun o => o.ctx.status) = some 502)
    ∧ (errorsIs err .ErrArgument = false → errorsIs err .ErrAuthentication = false →
      errorsIs err .ErrAuthorization = false → errorsIs err .ErrCommunicationTimeout = false →
      errorsIsRedirect err = false →
      (defaultErrorHandler logger ctx err).map (fun o => o.ctx.status) = some 500)
    ∧ (∀ msg : Option String,
      (defaultErrorHandler logger ctx [⟨.sentinel .ErrInternal, msg⟩]).map
        (fun o => o.ctx.status) = some 500) := by
  refine ⟨?_, ?_, ?_, ?_, ?_, ?_⟩
  · intro h1
    simp [defaultErrorHandler, h1, FiberCtx.SendStatus_status, fiber.StatusBadRequest]
  · intro h1 h2
    simp [defaultErrorHandler, h1, h2, FiberCtx.SendStatus_status, fiber.StatusUnauthorized]
  · intro h1 h2 h3
    simp [defaultErrorHandler, h1, h2, h3, FiberCtx.SendStatus_status, fiber.StatusForbidden]
  · intro h1 h2 h3 h4
    simp [defaultErrorHandler, h1, h2, h3, h4, FiberCtx.SendStatus_status,
      fiber.StatusBadGateway]
  · intro h1 h2 h3 h4 h5
    simp [defaultErrorHandler, h1, h2, h3, h4, h5, FiberCtx.SendStatus_status,
      fiber.StatusInternalServerError]
  · intro msg
    simp [defaultErrorHandler, errorsIs, errorsIsRedirect, FiberCtx.SendStatus_status,
      fiber.StatusInternalServerError]

/-- Witness for C7: an authentication error caused by an argument error is
answered with 400 (the argument case comes first), a bare authentication error
with 401, and `errors.New("boom")` with 500. -/
theorem defaultErrorHandler_status_by_kind_witness :
    (defaultErrorHandler ⟨[]⟩ exampleCtx exampleMixedError).map (fun o => o.ctx.status)
      = some 400
    ∧ (defaultErrorHandler ⟨[]⟩ exampleCtx (Sentinel.toError .ErrAuthentication)).map
        (fun o => o.ctx.status) = some 401
    ∧ (defaultErrorHandler ⟨[]⟩ exampleCtx (errorsNew "boom")).map (fun o => o.ctx.status)
      = some 500 :=
  ⟨(defaultErrorHandler_status_by_kind ⟨[]⟩ exampleCtx exampleMixedError).1 (by decide),
   (defaultErrorHandler_status_by_kind ⟨[]⟩ exampleCtx
      (Sentinel.toError .ErrAuthentication)).2.1 (by decide) (by decide),
   (defaultErrorHandler_status_by_kind ⟨[]⟩ exampleCtx (errorsNew "boom")).2.2.2.2.1
      (by decide) (by decide) (by decide) (by decide) (by decide)⟩

/-- C8 (counterexample): a `RedirectError` whose code is 404 (and which is of
no other kind) makes both handlers send status 404, a 4xx status; and a
`RedirectError` whose code is 0 is answered with status 200, not with its
code. -/
theorem errorHandlers_redirect_404 :
    errorsIs exampleRedirect404 .ErrArgument = false
    ∧ errorsIs exampleRedirect404 .ErrAuthentication = false
    ∧ errorsIs exampleRedirect404 .ErrAuthorization = false
    ∧ errorsIs exampleRedirect404 .ErrCommunicationTimeout = false
    ∧ errorsAsRedirect exampleRedirect404
        = some ⟨"redirect", 404, "https://login.example.com"⟩
    ∧ (defaultErrorHandler ⟨[]⟩ exampleCtx exampleRedirect404).map (fun o => o.ctx.status)
        = some 404
    ∧ (verboseErrorHandler ⟨[]⟩ exampleCtx exampleRedirect404).map (fun o => o.ctx.status)
        = some 404
    ∧ errorsAsRedirect exampleRedirect0 = some ⟨"redirect", 0, "https://login.example.com"⟩
    ∧ (defaultErrorHandler ⟨[]⟩ exampleCtx exampleRedirect0).map (fun o => o.ctx.status)
        = some 200
    ∧ (verboseErrorHandler ⟨[]⟩ exampleCtx exampleRedirect0).map (fun o => o.ctx.status)
        = some 200 := by
  decide

/-- C8 (amended): for every error in which `errors.As` finds the redirect
error `r` and which is not an argument, authentication, authorization or
timeout error, `defaultErrorHandler` and `verboseErrorHandler` leave the same
outcome: a redirect whose `Location` is exactly `r.RedirectTo` and whose
status is exactly `r.Code` when the code is an HTTP status code (100..599);
a code of 0 is reported as 200. The body is untouched, nothing is logged and
a nil error is returned. The handlers do not check the code: the status sent
is a 4xx/5xx one exactly when `r.Code` is in 400..599. -/
theorem errorHandlers_redirect (logger : Logger) (ctx : FiberCtx) (err : GoError)
    (r : RedirectError)
    (h1 : errorsIs err .ErrArgument = false) (h2 : errorsIs err .ErrAuthentication = false)
    (h3 : errorsIs err .ErrAuthorization = false)
    (h4 : errorsIs err .ErrCommunicationTimeout = false)
    (hr : errorsAsRedirect err = some r) :
    ∃ o : HandlerOutcome,
      defaultErrorHandler logger ctx err = some o
      ∧ verboseErrorHandler logger ctx err = some o
      ∧ o.ctx.header "Location" = some r.RedirectTo
      ∧ (100 ≤ r.Code ∧ r.Code ≤ 599 → o.ctx.status = r.Code)
      ∧ (r.Code = 0 → o.ctx.status = 200)
      ∧ o.ctx.body = ctx.body
      ∧ o.logger = logger
      ∧ o.ret = none
      ∧ ((400 ≤ o.ctx.status ∧ o.ctx.status ≤ 599) ↔ (400 ≤ r.Code ∧ r.Code ≤ 599)) := by
  obtain ⟨o, hd, hv, ho⟩ := errorHandlers_redirect_core logger ctx err r h1 h2 h3 h4 hr
  have hst : o.ctx.status = if r.Code = 0 then 200 else r.Code := by
    rw [ho]; rfl
  refine ⟨o, hd, hv, ?_, ?_, ?_, ?_, ?_, ?_, ?_⟩
  · rw [ho]
    exact FiberCtx.header_setHeader ctx "Location" r.RedirectTo
  · intro hc
    rw [hst, if_neg (by omega)]
  · intro hc
    rw [hst, if_pos hc]
  · rw [ho]; rfl
  · rw [ho]
  · rw [ho]
  · rw [hst]
    split_ifs with hc
    · constructor
      · intro h; omega
      · intro h; omega
    · exact Iff.rfl

/-- Witness for C8 (amended): a wrapped redirect to
`https://login.example.com` with code 302. -/
theorem errorHandlers_redirect_witness :
    ∃ o : HandlerOutcome,
      defaultErrorHandler ⟨[]⟩ exampleCtx exampleRedirect = some o
      ∧ verboseErrorHandler ⟨[]⟩ exampleCtx exampleRedirect = some o
      ∧ o.ctx.header "Location" = some "https://login.example.com"
      ∧ o.ctx.status = 302
      ∧ o.ctx.body = exampleCtx.body
      ∧ o.logger = ⟨[]⟩
      ∧ o.ret = none
      ∧ ¬ (400 ≤ o.ctx.status ∧ o.ctx.status ≤ 599) := by
  obtain ⟨o, hd, hv, hl, hs, -, hb, hlog, hret, h45⟩ :=
    errorHandlers_redirect ⟨[]⟩ exampleCtx exampleRedirect
      ⟨"redirect", 302, "https://login.example.com"⟩ (by decide) (by decide) (by decide)
      (by decide) (by decide)
  exact ⟨o, hd, hv, hl, hs (by decide), hb, hlog, hret, fun h => by
    have := h45.mp h
    revert this
    decide⟩

/-- C9 (counterexample): the default handler answers a bare cancellation
error with status 500, not 499. -/
theorem defaultErrorHandler_cancelled_500 :
    (defaultErrorHandler ⟨[]⟩ exampleCtx (Sentinel.toError .Canceled)).map
        (fun o => o.ctx.status) = some 500
    ∧ (defaultErrorHandler ⟨[]⟩ exampleCtx (Sentinel.toError .Canceled)).map
        (fun o => o.ctx.status) ≠ some 499 := by
  decide

/-- C9 (amended): the default error handler has no case for cancellation: a
cancellation error that is not also an argument, authentication, authorization
or timeout error nor a redirect is answered like any other error, with status
500, and is logged. -/
theorem defaultErrorHandler_cancelled (logger : Logger) (ctx : FiberCtx) (err : GoError)
    (_hc : errorsIs err .Canceled = true)
    (h1 : errorsIs err .ErrArgument = false) (h2 : errorsIs err .ErrAuthentication = false)
    (h3 : errorsIs err .ErrAuthorization = false)
    (h4 : errorsIs err .ErrCommunicationTimeout = false)
    (h5 : errorsIsRedirect err = false) :
    (defaultErrorHandler logger ctx err).map (fun o => o.ctx.status) = some 500
    ∧ (defaultErrorHandler logger ctx err).map (fun o => o.logger)
        = some (logger.Error err "Error occurred") := by
  simp [defaultErrorHandler, h1, h2, h3, h4, h5, FiberCtx.SendStatus_status,
    fiber.StatusInternalServerError]

/-- Witness for C9 (amended): the bare cancellation error. -/
theorem defaultErrorHandler_cancelled_witness :
    (defaultErrorHandler ⟨[]⟩ exampleCtx (Sentinel.toError .Canceled)).map
        (fun o => o.ctx.status) = some 500
    ∧ (defaultErrorHandler ⟨[]⟩ exampleCtx (Sentinel.toError .Canceled)).map (fun o => o.logger)
        = some (Logger.Error ⟨[]⟩ (Sentinel.toError .Canceled) "Error occurred") :=
  defaultErrorHandler_cancelled ⟨[]⟩ exampleCtx (Sentinel.toError .Canceled)
    (by decide) (by decide) (by decide) (by decide) (by decide) (by decide)

/-- C10 (counterexample): the handlers differ outside the body: for an
authentication error on `exampleCtx` (JSON negotiated) both answer 401, but
the verbose handler also sets the `Content-Type` header, which the default
handler leaves as it was. -/
theorem verboseErrorHandler_content_type_differs :
    (verboseErrorHandler ⟨[]⟩ exampleCtx (Sentinel.toError .ErrAuthentication)).map
        (fun o => o.ctx.status) = some 401
    ∧ (defaultErrorHandler ⟨[]⟩ exampleCtx (Sentinel.toError .ErrAuthentication)).map
        (fun o => o.ctx.status) = some 401
    ∧ (verboseErrorHandler ⟨[]⟩ exampleCtx (Sentinel.toError .ErrAuthentication)).map
        (fun o => o.ctx.header "Content-Type") = some (some "application/json")
    ∧ (defaultErrorHandler ⟨[]⟩ exampleCtx (Sentinel.toError .ErrAuthentication)).map
        (fun o => o.ctx.header "Content-Type") = some (exampleCtx.header "Content-Type")
    ∧ (verboseErrorHandler ⟨[]⟩ exampleCtx (Sentinel.toError .ErrAuthentication)).map
        (fun o => o.ctx.headers)
      ≠ (defaultErrorHandler ⟨[]⟩ exampleCtx (Sentinel.toError .ErrAuthentication)).map
        (fun o => o.ctx.headers) := by
  decide

/-- C10 (amended): the verbose handler differs from the default handler only
in the body and in the `Content-Type` header it sets for that body. For every
error neither handler panics and both choose the same response status, the
same value of every header other than `Content-Type` (so the same redirect
target), the same negotiated type, log the same events and return the same
error; the default handler leaves `Content-Type` as it was. For an error
answered by the redirect case the two outcomes are identical. Otherwise the
verbose handler writes the error in the negotiated format and sets
`Content-Type`, while the default handler leaves the headers untouched and
writes the status text if the body is still empty. `NewErrorHandler verbose
logger` is the verbose handler iff `verbose` is true, and the default handler
iff `verbose` is false. -/
theorem verboseErrorHandler_same_outside_body (logger : Logger) (ctx : FiberCtx)
    (err : GoError) :
    (∃ ov od : HandlerOutcome,
      verboseErrorHandler logger ctx err = some ov
      ∧ defaultErrorHandler logger ctx err = some od
      ∧ ov.ctx.status = od.ctx.status
      ∧ (∀ name : String, name ≠ "Content-Type" → ov.ctx.header name = od.ctx.header name)
      ∧ ov.ctx.accept = od.ctx.accept
      ∧ ov.logger = od.logger
      ∧ ov.ret = od.ret
      ∧ od.ctx.header "Content-Type" = ctx.header "Content-Type"
      ∧ ((errorsIs err .ErrArgument = false ∧ errorsIs err .ErrAuthentication = false
            ∧ errorsIs err .ErrAuthorization = false
            ∧ errorsIs err .ErrCommunicationTimeout = false
            ∧ errorsIsRedirect err = true) → ov = od)
      ∧ (¬ (errorsIs err .ErrArgument = false ∧ errorsIs err .ErrAuthentication = false
            ∧ errorsIs err .ErrAuthorization = false
            ∧ errorsIs err .ErrCommunicationTimeout = false
            ∧ errorsIsRedirect err = true) →
          ov.ctx.body = .formatted ctx.accept err
          ∧ (ov.ctx.header "Content-Type").isSome = true
          ∧ od.ctx.body
              = (if ctx.body = .empty then .statusMessage od.ctx.status else ctx.body)
          ∧ od.ctx.headers = ctx.headers))
    ∧ (∀ verbose : Bool,
        (NewErrorHandler verbose logger = verboseErrorHandler logger ↔ verbose = true)
        ∧ (NewErrorHandler verbose logger = defaultErrorHandler logger ↔ verbose = false)) := by
  have hne : verboseErrorHandler logger ≠ defaultErrorHandler logger := by
    intro h
    have := congrFun (congrFun h exampleCtx) (errorsNew "boom")
    revert this
    simp [verboseErrorHandler, defaultErrorHandler, errorsNew, errorsIs, errorsIsRedirect,
      FiberCtx.SendStatus, FiberCtx.Format, FiberCtx.Status, FiberCtx.setHeader, exampleCtx]
  have build : ∀ (st : Int) (lg : Logger), st ≠ 0 →
      verboseErrorHandler logger ctx err
        = some ⟨((ctx.Status st).Format err).1, lg, ((ctx.Status st).Format err).2⟩ →
      defaultErrorHandler logger ctx err
        = some ⟨(ctx.SendStatus st).1, lg, (ctx.SendStatus st).2⟩ →
      ¬ (errorsIs err .ErrArgument = false ∧ errorsIs err .ErrAuthentication = false
            ∧ errorsIs err .ErrAuthorization = false
            ∧ errorsIs err .ErrCommunicationTimeout = false
            ∧ errorsIsRedirect err = true) →
      ∃ ov od : HandlerOutcome,
        verboseErrorHandler logger ctx err = some ov
        ∧ defaultErrorHandler logger ctx err = some od
        ∧ ov.ctx.status = od.ctx.status
        ∧ (∀ name : String, name ≠ "Content-Type" → ov.ctx.header name = od.ctx.header name)
        ∧ ov.ctx.accept = od.ctx.accept
        ∧ ov.logger = od.logger
        ∧ ov.ret = od.ret
        ∧ od.ctx.header "Content-Type" = ctx.header "Content-Type"
        ∧ ((errorsIs err .ErrArgument = false ∧ errorsIs err .ErrAuthentication = false
              ∧ errorsIs err .ErrAuthorization = false
              ∧ errorsIs err .ErrCommunicationTimeout = false
              ∧ errorsIsRedirect err = true) → ov = od)
        ∧ (¬ (errorsIs err .ErrArgument = false ∧ errorsIs err .ErrAuthentication = false
              ∧ errorsIs err .ErrAuthorization = false
              ∧ errorsIs err .ErrCommunicationTimeout = false
              ∧ errorsIsRedirect err = true) →
            ov.ctx.body = .formatted ctx.accept err
            ∧ (ov.ctx.header "Content-Type").isSome = true
            ∧ od.ctx.body
                = (if ctx.body = .empty then .statusMessage od.ctx.status else ctx.body)
            ∧ od.ctx.headers = ctx.headers) := by
    intro st lg hst hv hd hnr
    obtain ⟨p1, p2, p3, p4, p5, p6, p7, p8, p9⟩ := errorHandlers_status_pair ctx err st hst
    exact ⟨_, _, hv, hd, p1, p2, p3, rfl, p4, p5, fun hr => absurd hr hnr,
      fun _ => ⟨p6, p7, p8, p9⟩⟩
  constructor
  · by_cases h1 : errorsIs err .ErrArgument = true
    · exact build fiber.StatusBadRequest logger (by decide)
        (by simp only [verboseErrorHandler, h1, if_true])
        (by simp only [defaultErrorHandler, h1, if_true])
        (by simp [h1])
    · by_cases h2 : errorsIs err .ErrAuthentication = true
      · exact build fiber.StatusUnauthorized logger (by decide)
          (by simp only [verboseErrorHandler, h1, h2, if_true, if_false, Bool.false_eq_true])
          (by simp only [defaultErrorHandler, h1, h2, if_true, if_false, Bool.false_eq_true])
          (by simp [h2])
      · by_cases h3 : errorsIs err .ErrAuthorization = true
        · exact build fiber.StatusForbidden logger (by decide)
            (by simp only [verboseErrorHandler, h1, h2, h3, if_true, if_false, Bool.false_eq_true])
            (by simp only [defaultErrorHandler, h1, h2, h3, if_true, if_false, Bool.false_eq_true])
            (by simp [h3])
        · by_cases h4 : errorsIs err .ErrCommunicationTimeout = true
          · exact build fiber.StatusBadGateway logger (by decide)
              (by simp only [verboseErrorHandler, h1, h2, h3, h4, if_true, if_false, Bool.false_eq_true])
              (by simp only [defaultErrorHandler, h1, h2, h3, h4, if_true, if_false, Bool.false_eq_true])
              (by simp [h4])
          · by_cases h5 : errorsIsRedirect err = true
            · obtain ⟨r, hr⟩ := errorsAsRedirect_isSome err h5
              have h1f : errorsIs err .ErrArgument = false := by simpa using h1
              have h2f : errorsIs err .ErrAuthentication = false := by simpa using h2
              have h3f : errorsIs err .ErrAuthorization = false := by simpa using h3
              have h4f : errorsIs err .ErrCommunicationTimeout = false := by simpa using h4
              obtain ⟨o, hd, hv, ho⟩ :=
                errorHandlers_redirect_core logger ctx err r h1f h2f h3f h4f hr
              refine ⟨o, o, hv, hd, rfl, fun _ _ => rfl, rfl, rfl, rfl, ?_, fun _ => rfl,
                fun hnr => absurd ⟨h1f, h2f, h3f, h4f, h5⟩ hnr⟩
              rw [ho]
              have := FiberCtx.header_setHeader_ne ctx "Content-Type" "Location" r.RedirectTo
                (by decide)
              simpa [FiberCtx.header, FiberCtx.setHeader, FiberCtx.Status] using this
            · exact build fiber.StatusInternalServerError (logger.Error err "Error occurred")
                (by decide)
                (by simp only [verboseErrorHandler, h1, h2, h3, h4, h5, if_true, if_false, Bool.false_eq_true])
                (by simp only [defaultErrorHandler, h1, h2, h3, h4, h5, if_true, if_false, Bool.false_eq_true])
                (by simp [h5])
  · intro verbose
    cases verbose with
    | true =>
      refine ⟨⟨fun _ => rfl, fun _ => rfl⟩, ⟨fun h => absurd h ?_, fun h => by simp at h⟩⟩
      exact hne
    | false =>
      refine ⟨⟨fun h => absurd h.symm hne, fun h => by simp at h⟩, ⟨fun _ => rfl, fun _ => rfl⟩⟩

/-- Witness for C10 (amended): an authentication error on `exampleCtx`; both
handlers answer 401 and agree on `Location`, the verbose one writes the error
as JSON, the default one the status text. -/
theorem verboseErrorHandler_same_outside_body_witness :
    ∃ ov od : HandlerOutcome,
      verboseErrorHandler ⟨[]⟩ exampleCtx (Sentinel.toError .ErrAuthentication) = some ov
      ∧ defaultErrorHandler ⟨[]⟩ exampleCtx (Sentinel.toError .ErrAuthentication) = some od
      ∧ ov.ctx.status = od.ctx.status
      ∧ ov.ctx.header "Location" = od.ctx.header "Location"
      ∧ ov.ctx.body = .formatted "json" (Sentinel.toError .ErrAuthentication)
      ∧ od.ctx.body = .statusMessage od.ctx.status
      ∧ od.ctx.headers = [] := by
  obtain ⟨ov, od, hv, hd, hs, hh, -, -, -, -, -, hb⟩ :=
    (verboseErrorHandler_same_outside_body ⟨[]⟩ exampleCtx
      (Sentinel.toError .ErrAuthentication)).1
  obtain ⟨b1, -, b3, b4⟩ := hb (by decide)
  exact ⟨ov, od, hv, hd, hs, hh "Location" (by decide), b1, b3, b4⟩

end ErrorHandlerClaims

section CompositeErrorHandlerLemmas

variable {σ Ctx : Type}

/-- A declining prefix is skipped: the loop continues with the remaining
handlers from the world the prefix leaves behind. -/
theorem CompositeErrorHandler.handler_loop_skip (ctx : Ctx) (e : Option GoError)
    (rest : List (ErrorHandler σ Ctx)) :
    ∀ (pre : List (ErrorHandler σ Ctx)) (e0 : Option GoError) (w w1 : σ),
      ErrorHandler.declineRun ctx e pre w = some w1 →
      ∃ e1, CompositeErrorHandler.loop ctx e (pre ++ rest) e0 w
          = CompositeErrorHandler.loop ctx e rest e1 w1 := by
  intro pre
  induction pre with
  | nil =>
    intro e0 w w1 h
    simp only [ErrorHandler.declineRun, Option.some.injEq] at h
    subst h
    exact ⟨e0, rfl⟩
  | cons b pre ih =>
    intro e0 w w1 h
    rcases hb : b.HandleError ctx e w with ⟨oe, w2⟩
    cases oe with
    | none => simp [ErrorHandler.declineRun, hb] at h
    | some err =>
      simp only [ErrorHandler.declineRun, hb] at h
      obtain ⟨e1, h1⟩ := ih (some err) w2 w1 h
      refine ⟨e1, ?_⟩
      simp only [List.cons_append, CompositeErrorHandler.loop, hb]
      exact h1

theorem ErrorHandler.handler_tracedFrom_append (k : Nat) (pre rest : List (ErrorHandler σ Ctx)) :
    ErrorHandler.tracedFrom k (pre ++ rest)
      = ErrorHandler.tracedFrom k pre ++ ErrorHandler.tracedFrom (k + pre.length) rest := by
  induction pre generalizing k with
  | nil => simp [ErrorHandler.tracedFrom]
  | cons b pre ih =>
    have hk : k + 1 + pre.length = k + (pre.length + 1) := by omega
    show ErrorHandler.traced k b :: ErrorHandler.tracedFrom (k + 1) (pre ++ rest) = _
    rw [ih, hk]
    rfl

theorem ErrorHandler.declineRun_traced (ctx : Ctx) (e : Option GoError) :
    ∀ (pre : List (ErrorHandler σ Ctx)) (k : Nat) (log : List (Nat × Option GoError))
      (w w1 : σ),
      ErrorHandler.declineRun ctx e pre w = some w1 →
      ErrorHandler.declineRun ctx e (ErrorHandler.tracedFrom k pre) (w, log)
        = some (w1, log ++ (List.range' k pre.length).map (fun i => (i, e))) := by
  intro pre
  induction pre with
  | nil =>
    intro k log w w1 h
    simp only [ErrorHandler.declineRun, Option.some.injEq] at h
    subst h
    simp [ErrorHandler.declineRun, ErrorHandler.tracedFrom]
  | cons b pre ih =>
    intro k log w w1 h
    rcases hb : b.HandleError ctx e w with ⟨oe, w2⟩
    cases oe with
    | none => simp [ErrorHandler.declineRun, hb] at h
    | some err =>
      simp only [ErrorHandler.declineRun, hb] at h
      have := ih (k + 1) (log ++ [(k, e)]) w2 w1 h
      simp only [ErrorHandler.tracedFrom, ErrorHandler.declineRun, ErrorHandler.traced, hb]
      rw [this]
      simp [List.range'_succ]

/-- After a declining prefix, the next handler decides: its result, nil or
not, is what a chain ending with it returns. -/
theorem CompositeErrorHandler.HandleError_at (ctx : Ctx) (e : Option GoError)
    (pre : List (ErrorHandler σ Ctx)) (eh : ErrorHandler σ Ctx) (w w1 w2 : σ)
    (hpre : ErrorHandler.declineRun ctx e pre w = some w1) :
    (∀ post, eh.HandleError ctx e w1 = (none, w2) →
      CompositeErrorHandler.HandleError (pre ++ eh :: post) ctx e w = (none, w2))
    ∧ (∀ err, eh.HandleError ctx e w1 = (some err, w2) →
      CompositeErrorHandler.HandleError (pre ++ [eh]) ctx e w = (some err, w2)) := by
  constructor
  · intro post he
    obtain ⟨e1, h1⟩ := CompositeErrorHandler.handler_loop_skip ctx e (eh :: post) pre none w w1 hpre
    rw [CompositeErrorHandler.HandleError, h1]
    simp only [CompositeErrorHandler.loop, he]
  · intro err he
    obtain ⟨e1, h1⟩ := CompositeErrorHandler.handler_loop_skip ctx e [eh] pre none w w1 hpre
    rw [CompositeErrorHandler.HandleError, h1]
    simp only [CompositeErrorHandler.loop, he]

theorem range_map_pair (n : Nat) (e : Option GoError) :
    (List.range' 0 n).map (fun i => (i, e)) ++ [(n, e)]
      = (List.range (n + 1)).map (fun i => (i, e)) := by
  rw [List.range_succ, List.range_eq_range', List.map_append]
  rfl

end CompositeErrorHandlerLemmas

section MechanismClaims

/-- C11 (counterexample): `noopAuthenticator.Authenticate` returns nil and
the subject it stores in the `SubjectContext` has the empty id. -/
theorem noopAuthenticator.Authenticate_empty_id :
    (noopAuthenticator.Authenticate () exampleSource ⟨none⟩).2 = none
    ∧ (noopAuthenticator.Authenticate () exampleSource ⟨none⟩).1.Subject.map (fun sub => sub.ID)
        = some "" := by
  decide

/-- C11 (amended): for every input `noopAuthenticator.Authenticate` returns
nil and stores in the `SubjectContext` a fresh zero-valued subject: its id is
the empty string and it has no attributes, whatever subject was stored
before. -/
theorem noopAuthenticator.Authenticate_zero_subject {Ctx : Type} (ctx : Ctx)
    (s : AuthDataSource) (sc : SubjectContext) :
    (noopAuthenticator.Authenticate ctx s sc).2 = none
    ∧ (noopAuthenticator.Authenticate ctx s sc).1.Subject = some ⟨"", []⟩
    ∧ (noopAuthenticator.Authenticate ctx s sc).1.Subject.map (fun sub => sub.ID) = some "" :=
  ⟨rfl, rfl, rfl⟩

/-- C12: for every configuration map `defaultHydrator.WithConfig` returns a
nil hydrator together with a nil error. -/
theorem defaultHydrator.WithConfig_nil_nil {Ctx Sub Conf : Type} (h : defaultHydrator)
    (config : Conf) :
    (defaultHydrator.WithConfig h config : Option (Hydrator Ctx Sub) × Option GoError)
      = (none, none) :=
  rfl

variable {σ Ctx : Type}

/-- C13: `CompositeErrorHandler.HandleError` hands the same `e` to the
handlers in list order. (1) If the handlers before `eh` all return an error
and `eh` then returns nil, the composite returns nil, and on the instrumented
chain the invocation log is `(0, e), ..., (pre.length, e)`: no handler after
`eh` is invoked. (2) If the chain is `pre ++ [eh]` and every handler returns
an error, the composite returns the error returned by the last handler `eh`,
every handler having been handed `e` once, in order. -/
theorem CompositeErrorHandler.HandleError_first_handled_or_last (ctx : Ctx)
    (e : Option GoError) (w : σ) :
    (∀ (pre post : List (ErrorHandler σ Ctx)) (eh : ErrorHandler σ Ctx) (w1 w2 : σ),
        ErrorHandler.declineRun ctx e pre w = some w1 →
        eh.HandleError ctx e w1 = (none, w2) →
        CompositeErrorHandler.HandleError (pre ++ eh :: post) ctx e w = (none, w2)
        ∧ CompositeErrorHandler.HandleError
            (ErrorHandler.tracedFrom 0 (pre ++ eh :: post)) ctx e (w, [])
          = (none, (w2, (List.range (pre.length + 1)).map (fun i => (i, e)))))
    ∧ (∀ (pre : List (ErrorHandler σ Ctx)) (eh : ErrorHandler σ Ctx) (w1 w2 : σ)
        (err : GoError),
        ErrorHandler.declineRun ctx e pre w = some w1 →
        eh.HandleError ctx e w1 = (some err, w2) →
        CompositeErrorHandler.HandleError (pre ++ [eh]) ctx e w = (some err, w2)
        ∧ CompositeErrorHandler.HandleError
            (ErrorHandler.tracedFrom 0 (pre ++ [eh])) ctx e (w, [])
          = (some err, (w2, (List.range (pre.length + 1)).map (fun i => (i, e))))) := by
  constructor
  · intro pre post eh w1 w2 hpre he
    refine ⟨(CompositeErrorHandler.HandleError_at ctx e pre eh w w1 w2 hpre).1 post he, ?_⟩
    have hp := ErrorHandler.declineRun_traced ctx e pre 0 [] w w1 hpre
    have hte : (eh.traced (0 + pre.length)).HandleError ctx e
        (w1, [] ++ (List.range' 0 pre.length).map (fun i => (i, e)))
        = (none, (w2, (List.range (pre.length + 1)).map (fun i => (i, e)))) := by
      simp only [ErrorHandler.traced, he, List.nil_append, Nat.zero_add, range_map_pair]
    rw [ErrorHandler.handler_tracedFrom_append]
    exact (CompositeErrorHandler.HandleError_at ctx e (ErrorHandler.tracedFrom 0 pre)
      (eh.traced (0 + pre.length)) (w, []) _ _ hp).1 _ hte
  · intro pre eh w1 w2 err hpre he
    refine ⟨(CompositeErrorHandler.HandleError_at ctx e pre eh w w1 w2 hpre).2 err he, ?_⟩
    have hp := ErrorHandler.declineRun_traced ctx e pre 0 [] w w1 hpre
    have hte : (eh.traced (0 + pre.length)).HandleError ctx e
        (w1, [] ++ (List.range' 0 pre.length).map (fun i => (i, e)))
        = (some err, (w2, (List.range (pre.length + 1)).map (fun i => (i, e)))) := by
      simp only [ErrorHandler.traced, he, List.nil_append, Nat.zero_add, range_map_pair]
    rw [ErrorHandler.handler_tracedFrom_append]
    exact (CompositeErrorHandler.HandleError_at ctx e (ErrorHandler.tracedFrom 0 pre)
      (eh.traced (0 + pre.length)) (w, []) _ _ hp).2 err hte

/-- Witness for C13: in `[declining, handling, declining]` the second handler
handles the error; in `[declining "first", declining "last"]` the error of
the last handler is returned. -/
theorem CompositeErrorHandler.HandleError_first_handled_or_last_witness :
    (CompositeErrorHandler.HandleError
        ([exampleDeclining "first"] ++ exampleHandling :: [exampleDeclining "last"]) ()
        (some (Sentinel.toError .ErrAuthentication)) 0 = (none, 2)
      ∧ CompositeErrorHandler.HandleError (ErrorHandler.tracedFrom 0
          ([exampleDeclining "first"] ++ exampleHandling :: [exampleDeclining "last"])) ()
          (some (Sentinel.toError .ErrAuthentication)) (0, [])
        = (none, (2, (List.range 2).map
            (fun i => (i, some (Sentinel.toError .ErrAuthentication))))))
    ∧ (CompositeErrorHandler.HandleError
        ([exampleDeclining "first"] ++ [exampleDeclining "last"]) ()
        (some (Sentinel.toError .ErrAuthentication)) 0 = (some (errorsNew "last"), 2)
      ∧ CompositeErrorHandler.HandleError (ErrorHandler.tracedFrom 0
          ([exampleDeclining "first"] ++ [exampleDeclining "last"])) ()
          (some (Sentinel.toError .ErrAuthentication)) (0, [])
        = (some (errorsNew "last"), (2, (List.range 2).map
            (fun i => (i, some (Sentinel.toError .ErrAuthentication)))))) :=
  ⟨(CompositeErrorHandler.HandleError_first_handled_or_last ()
      (some (Sentinel.toError .ErrAuthentication)) 0).1
      [exampleDeclining "first"] [exampleDeclining "last"] exampleHandling 1 2 rfl rfl,
   (CompositeErrorHandler.HandleError_first_handled_or_last ()
      (some (Sentinel.toError .ErrAuthentication)) 0).2
      [exampleDeclining "first"] (exampleDeclining "last") 1 2 (errorsNew "last") rfl rfl⟩

/-- C17: a composite with no members reports success without doing anything:
for every context and world the empty `CompositeAuthenticator` returns a nil
subject with a nil error, and for every error `e` the empty
`CompositeErrorHandler` returns nil; neither changes the world, and on the
instrumented lists the invocation log stays empty. -/
theorem Composite_empty_reports_success {Sub : Type} (ctx : Ctx) (e : Option GoError) (w : σ) :
    CompositeAuthenticator.Authenticate ([] : List (Authenticator σ Ctx Sub)) ctx w
      = ((none, none), w)
    ∧ CompositeErrorHandler.HandleError ([] : List (ErrorHandler σ Ctx)) ctx e w = (none, w)
    ∧ CompositeAuthenticator.Authenticate
        (Authenticator.tracedFrom 0 ([] : List (Authenticator σ Ctx Sub))) ctx (w, [])
      = ((none, none), (w, []))
    ∧ CompositeErrorHandler.HandleError
        (ErrorHandler.tracedFrom 0 ([] : List (ErrorHandler σ Ctx))) ctx e (w, [])
      = (none, (w, [])) :=
  ⟨rfl, rfl, rfl, rfl⟩

end MechanismClaims

section LoaderLemmas

theorem separatorChoices_length (k : Nat) : (separatorChoices k).length = 2 ^ k := by
  induction k with
  | zero => rfl
  | succ k ih =>
    have h : ∀ l : List (List String),
        (l.flatMap (fun c => ["." :: c, "_" :: c])).length = 2 * l.length := by
      intro l
      induction l with
      | nil => rfl
      | cons x xs ihx =>
        simp only [List.flatMap_cons, List.length_append, List.length_cons, List.length_nil, ihx]
        omega
    rw [separatorChoices, h, ih, pow_succ]
    omega

theorem mem_separatorChoices (k : Nat) (c : List String) :
    c ∈ separatorChoices k ↔ c.length = k ∧ ∀ s ∈ c, s = "." ∨ s = "_" := by
  induction k generalizing c with
  | zero =>
    simp only [separatorChoices, List.mem_singleton, List.length_eq_zero]
    constructor
    · intro h; subst h; simp
    · intro h; exact h.1
  | succ k ih =>
    simp only [separatorChoices, List.mem_flatMap, List.mem_cons, List.mem_singleton,
      List.mem_nil_iff, or_false]
    constructor
    · rintro ⟨d, hd, rfl | rfl⟩
      · obtain ⟨h1, h2⟩ := (ih d).mp hd
        refine ⟨by simp [h1], ?_⟩
        intro s hs
        rcases List.mem_cons.mp hs with h | h
        · exact Or.inl h
        · exact h2 s h
      · obtain ⟨h1, h2⟩ := (ih d).mp hd
        refine ⟨by simp [h1], ?_⟩
        intro s hs
        rcases List.mem_cons.mp hs with h | h
        · exact Or.inr h
        · exact h2 s h
    · rintro ⟨hl, hs⟩
      cases c with
      | nil => simp at hl
      | cons s d =>
        refine ⟨d, (ih d).mpr ⟨by simpa using hl, fun x hx => hs x (List.mem_cons_of_mem _ hx)⟩, ?_⟩
        rcases hs s (List.mem_cons_self _ _) with h | h
        · left; rw [h]
        · right; rw [h]

theorem separatorChoices_nodup (k : Nat) : (separatorChoices k).Nodup := by
  induction k with
  | zero => simp [separatorChoices]
  | succ k ih =>
    rw [separatorChoices, List.nodup_flatMap]
    refine ⟨?_, ?_⟩
    · intro c _
      simp
    · refine List.Nodup.pairwise_of_forall_ne ih ?_
      intro a _ b _ hab
      simp only [Function.onFun, List.disjoint_cons_left, List.mem_cons, List.cons.injEq,
        List.mem_singleton, List.mem_nil_iff, or_false, List.disjoint_nil_left, and_true]
      refine ⟨?_, ?_⟩
      · rintro (⟨-, h⟩ | ⟨h, -⟩)
        · exact hab h
        · exact absurd h (by decide)
      · rintro (⟨h, -⟩ | ⟨-, h⟩)
        · exact absurd h (by decide)
        · exact hab h

/-- The result of `expandSlices`, choice by choice and in the order of the
source. -/
theorem expandSlices_eq_map : ∀ (parts : List String), parts ≠ [] →
    expandSlices parts
      = some ((separatorChoices (parts.length - 1)).map (joinSeparated parts))
  | [], h => absurd rfl h
  | [p], _ => rfl
  | p :: q :: rest, _ => by
    have ih := expandSlices_eq_map (q :: rest) (by simp)
    simp only [expandSlices, ih, List.length_cons, Nat.add_sub_cancel, separatorChoices]
    congr 1
    generalize separatorChoices rest.length = l
    induction l with
    | nil => rfl
    | cons c cs ihc =>
      simp only [List.map_cons, List.flatMap_cons, List.map_append, ihc, joinSeparated,
        List.map_nil]

theorem joinSeparated_inj : ∀ (parts c d : List String),
    c.length = parts.length - 1 → d.length = parts.length - 1 →
    (∀ s ∈ c, s = "." ∨ s = "_") → (∀ s ∈ d, s = "." ∨ s = "_") →
    joinSeparated parts c = joinSeparated parts d → c = d
  | [], c, d, hc, hd, _, _, _ => by
    rw [List.length_eq_zero.mp hc, List.length_eq_zero.mp hd]
  | [_], c, d, hc, hd, _, _, _ => by
    rw [List.length_eq_zero.mp hc, List.length_eq_zero.mp hd]
  | _ :: _ :: _, [], _, hc, _, _, _, _ => by simp at hc
  | _ :: _ :: _, _ :: _, [], _, hd, _, _, _ => by simp at hd
  | p :: q :: rest, s :: ss, t :: ts, hc, hd, hs, ht, h => by
    have h1 : (p ++ s ++ joinSeparated (q :: rest) ss).data
        = (p ++ t ++ joinSeparated (q :: rest) ts).data := congrArg String.data h
    simp only [String.data_append, List.append_assoc] at h1
    have h2 := List.append_cancel_left h1
    have hst : s = t ∧ joinSeparated (q :: rest) ss = joinSeparated (q :: rest) ts := by
      rcases hs s (List.mem_cons_self _ _) with e1 | e1 <;>
        rcases ht t (List.mem_cons_self _ _) with e2 | e2 <;>
        subst e1 <;> subst e2
      · exact ⟨rfl, String.ext (List.cons.inj h2).2⟩
      · exact absurd (List.cons.inj h2).1 (by decide)
      · exact absurd (List.cons.inj h2).1 (by decide)
      · exact ⟨rfl, String.ext (List.cons.inj h2).2⟩
    have ih := joinSeparated_inj (q :: rest) ss ts (by simpa using hc) (by simpa using hd)
      (fun x hx => hs x (List.mem_cons_of_mem _ hx))
      (fun x hx => ht x (List.mem_cons_of_mem _ hx)) hst.2
    rw [hst.1, ih]

/-- Go `strings.Join(parts, sep)` is `joinSeparated` with the same separator
at every place. -/
theorem intercalate_go_eq (sep : String) : ∀ (ps : List String) (acc p : String),
    String.intercalate.go (acc ++ p) sep ps
      = acc ++ joinSeparated (p :: ps) (List.replicate ps.length sep)
  | [], _, _ => rfl
  | q :: rest, acc, p => by
    have ih := intercalate_go_eq sep rest (acc ++ p ++ sep) q
    simp only [String.intercalate.go, List.length_cons, List.replicate_succ, joinSeparated]
    rw [ih]
    simp only [String.append_assoc]

theorem joinSeparated_replicate (sep : String) (parts : List String) :
    joinSeparated parts (List.replicate (parts.length - 1) sep) = sep.intercalate parts := by
  cases parts with
  | nil => rfl
  | cons p ps =>
    have := intercalate_go_eq sep ps "" p
    simp only [String.intercalate, List.length_cons, Nat.add_sub_cancel]
    have e : ("" : String) ++ p = p := String.ext (by simp)
    rw [e] at this
    rw [this]
    exact String.ext (by simp)

theorem strings.splitRunes_ne_nil (sep : Char) : ∀ l : List Char, strings.splitRunes sep l ≠ []
  | [] => by simp [strings.splitRunes]
  | c :: cs => by
    by_cases h : c = sep
    · simp [strings.splitRunes, h]
    · cases hs : strings.splitRunes sep cs <;> simp [strings.splitRunes, h, hs]

theorem joinSeparated_cons_data (c : Char) (h : List Char) (ps seps : List String) :
    (joinSeparated (String.mk (c :: h) :: ps) seps).data
      = c :: (joinSeparated (String.mk h :: ps) seps).data := by
  cases ps with
  | nil => rfl
  | cons q rest =>
    cases seps with
    | nil => rfl
    | cons s ss => simp [joinSeparated]

/-- Joining the parts of `strings.Split(key, sep)` with `sep` gives back the
key. -/
theorem strings.join_splitRunes (sep : Char) : ∀ l : List Char,
    (joinSeparated ((strings.splitRunes sep l).map String.mk)
      (List.replicate ((strings.splitRunes sep l).length - 1) (String.singleton sep))).data = l
  | [] => rfl
  | c :: cs => by
    have ih := strings.join_splitRunes sep cs
    have hne := strings.splitRunes_ne_nil sep cs
    cases hs : strings.splitRunes sep cs with
    | nil => exact absurd hs hne
    | cons h t =>
      rw [hs] at ih
      by_cases hc : c = sep
      · simp only [strings.splitRunes, hc, if_true, hs, List.map_cons, List.length_cons,
          Nat.add_sub_cancel, List.replicate_succ, joinSeparated, String.data_append]
        simp only [List.map_cons, List.length_cons, Nat.add_sub_cancel] at ih
        rw [ih]
        rfl
      · simp only [strings.splitRunes, hc, if_false, hs, List.map_cons, List.length_cons,
          Nat.add_sub_cancel]
        simp only [List.map_cons, List.length_cons, Nat.add_sub_cancel] at ih
        rw [joinSeparated_cons_data, ih]

theorem unicode.properties_notLetter (n : Nat) (h : n < 0x41 ∨ (0x5A < n ∧ n < 0x61)) :
    unicode.properties n = .notLetter := by
  unfold unicode.properties
  split_ifs <;> first | rfl | omega

/-- Digits, `_` and `.` are not letters. -/
theorem unicode.IsLetter_digit_or_separator (T : UnicodeTables) (r : Char)
    (h : r.isDigit = true ∨ r = '_' ∨ r = '.') : unicode.IsLetter T r = false := by
  have hn : r.toNat < 0x41 ∨ (0x5A < r.toNat ∧ r.toNat < 0x61) := by
    rcases h with h | h | h
    · left
      simp only [Char.isDigit, Bool.and_eq_true, decide_eq_true_eq] at h
      have h2 : r.val.toNat ≤ 57 := h.2
      exact Nat.lt_of_le_of_lt h2 (by decide)
    · right; subst h; decide
    · left; subst h; decide
  have hle : r.toNat ≤ 0xFF := by omega
  simp [unicode.IsLetter, hle, unicode.properties_notLetter _ hn]

theorem isLower.loop_iff (T : UnicodeTables) (l : List Char) :
    isLower.loop T l = true ↔
      ∀ r ∈ l, unicode.IsLetter T r = true → unicode.IsLower T r = true := by
  induction l with
  | nil => simp [isLower.loop]
  | cons r rest ih =>
    by_cases hb : (!unicode.IsLower T r && unicode.IsLetter T r) = true
    · simp only [isLower.loop, hb, if_true, Bool.false_eq_true, false_iff]
      intro h
      have := h r (List.mem_cons_self _ _)
      simp only [Bool.and_eq_true, Bool.not_eq_true'] at hb
      rw [this hb.2] at hb
      exact absurd hb.1 (by decide)
    · have hb2 : (!unicode.IsLower T r && unicode.IsLetter T r) = false := by simpa using hb
      simp only [isLower.loop, hb2, Bool.false_eq_true, if_false, ih]
      constructor
      · intro h x hx
        rcases List.mem_cons.mp hx with e | e
        · subst e
          intro hl
          by_contra hlow
          apply hb
          simp [hl, hlow]
        · exact h x e
      · intro h x hx
        exact h x (List.mem_cons_of_mem _ hx)

theorem koanfFromStruct.loop_all_lower (T : UnicodeTables) (k : Koanf) (keys : List String)
    (h : ∀ key ∈ keys, isLower T key = true) :
    koanfFromStruct.loop T k keys = (none, some k) := by
  induction keys with
  | nil => rfl
  | cons key rest ih =>
    simp only [koanfFromStruct.loop, h key (List.mem_cons_self _ _), Bool.not_true,
      Bool.false_eq_true, if_false]
    exact ih (fun x hx => h x (List.mem_cons_of_mem _ hx))

theorem koanfFromStruct.loop_first_bad (T : UnicodeTables) (k : Koanf)
    (pre post : List String) (key : String)
    (hpre : ∀ x ∈ pre, isLower T x = true) (hkey : isLower T key = false) :
    koanfFromStruct.loop T k (pre ++ key :: post)
      = (some (errorsNew (koanfFromStruct.message key)), none) := by
  induction pre with
  | nil => simp [koanfFromStruct.loop, hkey]
  | cons x xs ih =>
    simp only [List.cons_append, koanfFromStruct.loop, hpre x (List.mem_cons_self _ _),
      Bool.not_true, Bool.false_eq_true, if_false]
    exact ih (fun y hy => hpre y (List.mem_cons_of_mem _ hy))

theorem koanfFromStruct.loop_error_iff (T : UnicodeTables) (k : Koanf) (keys : List String) :
    (koanfFromStruct.loop T k keys).1 ≠ none ↔ ∃ key ∈ keys, isLower T key = false := by
  induction keys with
  | nil => simp [koanfFromStruct.loop]
  | cons key rest ih =>
    by_cases hk : isLower T key = true
    · simp only [koanfFromStruct.loop, hk, Bool.not_true, Bool.false_eq_true, if_false, ih,
        List.mem_cons, exists_eq_or_imp, Bool.true_eq_false, false_or]
    · have hk2 : isLower T key = false := by simpa using hk
      simp [koanfFromStruct.loop, hk2]

end LoaderLemmas

section LoaderClaims

/-- C14: for every non-empty list of parts `p1..pn`, `expandSlices` returns
(without panicking) a list of exactly `2^(n-1)` strings; a string is in it
iff it is `p1 s1 p2 ... s(n-1) pn` for separators `si` chosen from `"."` and
`"_"`, and every such choice occurs exactly once; the fully nested path
`strings.Join(parts, ".")` and the underscore-joined key
`strings.Join(parts, "_")` are both among the results. For every key the
parts `strings.Split(key, "_")` are non-empty, so the expansion
`transformEnvFormat` makes of the key contains the key itself and its fully
nested path; `"foo_bar"` yields `"foo.bar"` and `"foo_bar"`. -/
theorem expandSlices_all_separator_choices :
    (∀ parts : List String, parts ≠ [] →
      ∃ result, expandSlices parts = some result
        ∧ result.length = 2 ^ (parts.length - 1)
        ∧ (∀ x, x ∈ result ↔
            ∃ seps : List String, seps.length = parts.length - 1
              ∧ (∀ s ∈ seps, s = "." ∨ s = "_") ∧ x = joinSeparated parts seps)
        ∧ (∀ seps : List String, seps.length = parts.length - 1 →
            (∀ s ∈ seps, s = "." ∨ s = "_") → result.count (joinSeparated parts seps) = 1)
        ∧ ".".intercalate parts ∈ result
        ∧ "_".intercalate parts ∈ result)
    ∧ (∀ key : String,
      ∃ result, transformEnvFormat.keys key = some result
        ∧ key ∈ result
        ∧ ".".intercalate (strings.Split key '_') ∈ result)
    ∧ transformEnvFormat.keys "foo_bar" = some ["foo.bar", "foo_bar"] := by
  have main : ∀ parts : List String, parts ≠ [] →
      ∃ result, expandSlices parts = some result
        ∧ result.length = 2 ^ (parts.length - 1)
        ∧ (∀ x, x ∈ result ↔
            ∃ seps : List String, seps.length = parts.length - 1
              ∧ (∀ s ∈ seps, s = "." ∨ s = "_") ∧ x = joinSeparated parts seps)
        ∧ (∀ seps : List String, seps.length = parts.length - 1 →
            (∀ s ∈ seps, s = "." ∨ s = "_") → result.count (joinSeparated parts seps) = 1)
        ∧ ".".intercalate parts ∈ result
        ∧ "_".intercalate parts ∈ result := by
    intro parts hne
    have hmem : ∀ x, x ∈ (separatorChoices (parts.length - 1)).map (joinSeparated parts) ↔
        ∃ seps : List String, seps.length = parts.length - 1
          ∧ (∀ s ∈ seps, s = "." ∨ s = "_") ∧ x = joinSeparated parts seps := by
      intro x
      simp only [List.mem_map, mem_separatorChoices]
      constructor
      · rintro ⟨seps, ⟨h1, h2⟩, rfl⟩
        exact ⟨seps, h1, h2, rfl⟩
      · rintro ⟨seps, h1, h2, rfl⟩
        exact ⟨seps, ⟨h1, h2⟩, rfl⟩
    have hnd : ((separatorChoices (parts.length - 1)).map (joinSeparated parts)).Nodup := by
      refine List.Nodup.map_on ?_ (separatorChoices_nodup _)
      intro c hc d hd hcd
      obtain ⟨c1, c2⟩ := (mem_separatorChoices _ c).mp hc
      obtain ⟨d1, d2⟩ := (mem_separatorChoices _ d).mp hd
      exact joinSeparated_inj parts c d c1 d1 c2 d2 hcd
    refine ⟨_, expandSlices_eq_map parts hne, ?_, hmem, ?_, ?_, ?_⟩
    · rw [List.length_map, separatorChoices_length]
    · intro seps h1 h2
      exact List.count_eq_one_of_mem hnd ((hmem _).mpr ⟨seps, h1, h2, rfl⟩)
    · rw [← joinSeparated_replicate]
      exact (hmem _).mpr ⟨_, by simp, fun s hs => Or.inl (List.eq_of_mem_replicate hs), rfl⟩
    · rw [← joinSeparated_replicate]
      exact (hmem _).mpr ⟨_, by simp, fun s hs => Or.inr (List.eq_of_mem_replicate hs), rfl⟩
  refine ⟨main, ?_, by decide⟩
  intro key
  have hne : strings.Split key '_' ≠ [] := by
    simp [strings.Split, strings.splitRunes_ne_nil]
  obtain ⟨result, h1, -, h3, -, h5, h6⟩ := main (strings.Split key '_') hne
  refine ⟨result, h1, ?_, h5⟩
  have hkey : "_".intercalate (strings.Split key '_') = key := by
    rw [← joinSeparated_replicate]
    apply String.ext
    have := strings.join_splitRunes '_' key.data
    simpa [strings.Split] using this
  rw [hkey] at h6
  exact h6

/-- Witness for C14: the parts `foo`, `bar`, `baz`. -/
theorem expandSlices_all_separator_choices_witness :
    ∃ result, expandSlices ["foo", "bar", "baz"] = some result
      ∧ result.length = 2 ^ (["foo", "bar", "baz"].length - 1)
      ∧ (∀ x, x ∈ result ↔
          ∃ seps : List String, seps.length = ["foo", "bar", "baz"].length - 1
            ∧ (∀ s ∈ seps, s = "." ∨ s = "_")
            ∧ x = joinSeparated ["foo", "bar", "baz"] seps)
      ∧ (∀ seps : List String, seps.length = ["foo", "bar", "baz"].length - 1 →
          (∀ s ∈ seps, s = "." ∨ s = "_") →
          result.count (joinSeparated ["foo", "bar", "baz"] seps) = 1)
      ∧ ".".intercalate ["foo", "bar", "baz"] ∈ result
      ∧ "_".intercalate ["foo", "bar", "baz"] ∈ result :=
  expandSlices_all_separator_choices.1 ["foo", "bar", "baz"] (by decide)

/-- C15: `isLower s` is true iff `s` contains no letter that is not lower
case; the empty string is accepted, and runes that are not letters (digits,
`_` and `.` among them) never cause rejection. For a struct that loads into
`k`, `koanfFromStruct` returns an error iff at least one key of `k.Keys()`
fails `isLower`; the error then names the first such key in key order and no
instance is returned, and otherwise `k` is returned with a nil error. -/
theorem isLower_and_koanfFromStruct_lowercase_keys (T : UnicodeTables) :
    (∀ s : String, isLower T s = true ↔
      ∀ r ∈ s.data, unicode.IsLetter T r = true → unicode.IsLower T r = true)
    ∧ isLower T "" = true
    ∧ (∀ s : String, (∀ r ∈ s.data, unicode.IsLetter T r = false) → isLower T s = true)
    ∧ (∀ r : Char, r.isDigit = true ∨ r = '_' ∨ r = '.' → unicode.IsLetter T r = false)
    ∧ (∀ (S : Type) (Load : S → Option GoError × Koanf) (s : S) (k : Koanf),
        Load s = (none, k) →
        ((koanfFromStruct T Load s).1 ≠ none ↔ ∃ key ∈ k.Keys, isLower T key = false)
        ∧ (∀ (pre post : List String) (key : String), k.Keys = pre ++ key :: post →
            (∀ x ∈ pre, isLower T x = true) → isLower T key = false →
            koanfFromStruct T Load s
              = (some (errorsNew ("The Field " ++ key
                  ++ " in the Config Struct does not have lowercase Key. Use the `koanf` tag!")),
                 none))
        ∧ ((∀ key ∈ k.Keys, isLower T key = true) →
            koanfFromStruct T Load s = (none, some k))) := by
  refine ⟨fun s => isLower.loop_iff T s.data, rfl, ?_,
    unicode.IsLetter_digit_or_separator T, ?_⟩
  · intro s h
    apply (isLower.loop_iff T s.data).mpr
    intro r hr hl
    rw [h r hr] at hl
    exact absurd hl (by decide)
  · intro S Load s k hload
    have hres : koanfFromStruct T Load s = koanfFromStruct.loop T k k.Keys := by
      simp only [koanfFromStruct, hload]
    refine ⟨?_, ?_, ?_⟩
    · rw [hres]
      exact koanfFromStruct.loop_error_iff T k k.Keys
    · intro pre post key hk hpre hkey
      rw [hres, hk]
      exact koanfFromStruct.loop_first_bad T k pre post key hpre hkey
    · intro h
      rw [hres]
      exact koanfFromStruct.loop_all_lower T k k.Keys h

/-- Witness for C15: of the keys `log.level`, `serverPort`, `Foo` the first
that is not lower case is `serverPort`. -/
theorem isLower_and_koanfFromStruct_lowercase_keys_witness :
    koanfFromStruct exampleTables exampleLoad ["log.level", "serverPort", "Foo"]
      = (some (errorsNew ("The Field " ++ "serverPort"
          ++ " in the Config Struct does not have lowercase Key. Use the `koanf` tag!")),
         none) :=
  ((isLower_and_koanfFromStruct_lowercase_keys exampleTables).2.2.2.2 (List String)
      exampleLoad ["log.level", "serverPort", "Foo"] ⟨["log.level", "serverPort", "Foo"]⟩
      rfl).2.1 ["log.level"] ["Foo"] "serverPort" rfl (by decide) (by decide)

/-- C16: when the source kind is `String` and the target type is
`zerolog.Level`, `logLevelDecode` maps the strings `panic`, `fatal`, `error`,
`warn` and `debug` to the level of the same name and every other value
(`info`, `trace`, the empty string and differently-cased names among them) to
`InfoLevel`, always with a nil error; for any other source kind or target
type the input value is returned unchanged with a nil error. -/
theorem logLevelDecode_levels (fromT toT : reflect.Type) (v : GoAny) :
    (fromT.Kind = .String ∧ toT.Name = "Level" ∧ toT.PkgPath = "github.com/rs/zerolog" →
      logLevelDecode fromT toT (.str "panic") = (.level .PanicLevel, none)
      ∧ logLevelDecode fromT toT (.str "fatal") = (.level .FatalLevel, none)
      ∧ logLevelDecode fromT toT (.str "error") = (.level .ErrorLevel, none)
      ∧ logLevelDecode fromT toT (.str "warn") = (.level .WarnLevel, none)
      ∧ logLevelDecode fromT toT (.str "debug") = (.level .DebugLevel, none)
      ∧ (v ≠ .str "panic" → v ≠ .str "fatal" → v ≠ .str "error" → v ≠ .str "warn" →
          v ≠ .str "debug" → logLevelDecode fromT toT v = (.level .InfoLevel, none))
      ∧ logLevelDecode fromT toT (.str "info") = (.level .InfoLevel, none)
      ∧ logLevelDecode fromT toT (.str "trace") = (.level .InfoLevel, none)
      ∧ logLevelDecode fromT toT (.str "") = (.level .InfoLevel, none)
      ∧ logLevelDecode fromT toT (.str "PANIC") = (.level .InfoLevel, none)
      ∧ logLevelDecode fromT toT (.str "Debug") = (.level .InfoLevel, none))
    ∧ (¬ (fromT.Kind = .String ∧ toT.Name = "Level" ∧ toT.PkgPath = "github.com/rs/zerolog") →
      logLevelDecode fromT toT v = (v, none))
    ∧ (logLevelDecode fromT toT v).2 = none := by
  refine ⟨?_, ?_, ?_⟩
  · intro h
    refine ⟨?_, ?_, ?_, ?_, ?_, ?_, ?_, ?_, ?_, ?_, ?_⟩
    · simp [logLevelDecode, h]
    · simp [logLevelDecode, h]
    · simp [logLevelDecode, h]
    · simp [logLevelDecode, h]
    · simp [logLevelDecode, h]
    · intro h1 h2 h3 h4 h5
      simp [logLevelDecode, h, h1, h2, h3, h4, h5]
    · simp [logLevelDecode, h]
    · simp [logLevelDecode, h]
    · simp [logLevelDecode, h]
    · simp [logLevelDecode, h]
    · simp [logLevelDecode, h]
  · intro h
    simp only [logLevelDecode, h, if_false]
  · unfold logLevelDecode
    split_ifs <;> rfl

/-- Witness for C16: decoding from `string` to `zerolog.Level`, and from
`string` to `string`. -/
theorem logLevelDecode_levels_witness :
    logLevelDecode exampleStringType exampleLevelType (.str "warn") = (.level .WarnLevel, none)
    ∧ logLevelDecode exampleStringType exampleLevelType (.str "trace")
        = (.level .InfoLevel, none)
    ∧ logLevelDecode exampleStringType exampleLevelType (.namedString "main" "Name" "panic")
        = (.level .InfoLevel, none)
    ∧ logLevelDecode exampleStringType exampleStringType (.str "panic") = (.str "panic", none) :=
  ⟨((logLevelDecode_levels exampleStringType exampleLevelType (.str "warn")).1
      (by decide)).2.2.2.1,
   ((logLevelDecode_levels exampleStringType exampleLevelType (.str "trace")).1
      (by decide)).2.2.2.2.2.2.2.1,
   ((logLevelDecode_levels exampleStringType exampleLevelType
      (.namedString "main" "Name" "panic")).1 (by decide)).2.2.2.2.2.1
      (by decide) (by decide) (by decide) (by decide) (by decide),
   (logLevelDecode_levels exampleStringType exampleStringType (.str "panic")).2.1 (by decide)⟩

end LoaderClaims

end Heimdall
